import Mathlib

/-!
# Verification of the Lov language implementation (Liberation-Oriented Vocabulary)

Shallow embedding of the JavaScript sources of the Lov language implementation:
`src/environment.js` (scope chain and structural type validation),
`src/interpreter.js` (tree-walking evaluator), `src/engine.js` (bytecode
compiler and stack VM) and the top-level dispatch of `src/parser.js`.

Modelling conventions:
* JavaScript numbers are modelled by `JNum`: an exact rational together with
  the IEEE special values `Infinity`, `-Infinity` and `NaN`.  Signed zero is
  conflated with zero and decimal printing of non-integers is approximate;
  no theorem below depends on either.
* JavaScript exceptions are modelled by `Except Err`; `Err.thrown msg`
  carries the `Error` message (the interpreter observes errors through
  `e.message` only).  Unbounded recursion/loops are modelled with an explicit
  fuel parameter; exhaustion yields the distinguished outcome `Err.noFuel`,
  which is never swallowed by modelled `catch` blocks.
* The mutable parent-linked `Environment` chain is modelled as an arena of
  frames addressed by index (`Arena`), with mutation by state passing.
* JavaScript objects are modelled by `Value.dictV` (plain string-keyed
  records); `===` on two objects compares references in JavaScript, which a
  structural model cannot see, so `strictEq` returns `false` on any two
  object values.  No theorem below compares object identities.
-/

set_option maxHeartbeats 1000000

namespace Lov

/-! ## JavaScript numbers -/

/-- A JavaScript number: an exact rational, `Infinity`, `-Infinity` or `NaN`.
(Signed zero is conflated with zero; float rounding is idealised to exact
rational arithmetic.  The division/modulo-by-zero behaviour, which the claims
depend on, is modelled exactly.) -/
inductive JNum where
  | fin (q : ℚ)
  | inf
  | negInf
  | nan
deriving Repr, DecidableEq

/-- JavaScript `+` on numbers. -/
def jAdd : JNum → JNum → JNum
  | .nan, _ => .nan
  | _, .nan => .nan
  | .inf, .negInf => .nan
  | .negInf, .inf => .nan
  | .inf, _ => .inf
  | _, .inf => .inf
  | .negInf, _ => .negInf
  | _, .negInf => .negInf
  | .fin a, .fin b => .fin (a + b)

/-- JavaScript unary `-` on numbers. -/
def jNeg : JNum → JNum
  | .fin q => .fin (-q)
  | .inf => .negInf
  | .negInf => .inf
  | .nan => .nan

/-- JavaScript `-` on numbers. -/
def jSub (a b : JNum) : JNum := jAdd a (jNeg b)

/-- JavaScript `*` on numbers. -/
def jMul : JNum → JNum → JNum
  | .nan, _ => .nan
  | _, .nan => .nan
  | .fin a, .fin b => .fin (a * b)
  | .fin a, .inf => if a = 0 then .nan else if 0 < a then .inf else .negInf
  | .fin a, .negInf => if a = 0 then .nan else if 0 < a then .negInf else .inf
  | .inf, .fin b => if b = 0 then .nan else if 0 < b then .inf else .negInf
  | .negInf, .fin b => if b = 0 then .nan else if 0 < b then .negInf else .inf
  | .inf, .inf => .inf
  | .inf, .negInf => .negInf
  | .negInf, .inf => .negInf
  | .negInf, .negInf => .inf

/-- JavaScript `/` on numbers.  In particular `a / 0` is `Infinity`,
`-Infinity` or `NaN` depending on the sign of `a`; it is never an error. -/
def jDiv : JNum → JNum → JNum
  | .nan, _ => .nan
  | _, .nan => .nan
  | .fin a, .fin b =>
      if b = 0 then (if a = 0 then .nan else if 0 < a then .inf else .negInf)
      else .fin (a / b)
  | .fin _, .inf => .fin 0
  | .fin _, .negInf => .fin 0
  | .inf, .fin b => if 0 ≤ b then .inf else .negInf
  | .negInf, .fin b => if 0 ≤ b then .negInf else .inf
  | .inf, _ => .nan
  | .negInf, _ => .nan

/-- Truncation of a rational toward zero (the rounding JavaScript `%` uses). -/
def truncQ (q : ℚ) : ℤ := if 0 ≤ q then ⌊q⌋ else ⌈q⌉

/-- JavaScript `%` on numbers.  `a % 0` is `NaN`, never an error. -/
def jMod : JNum → JNum → JNum
  | .nan, _ => .nan
  | _, .nan => .nan
  | .inf, _ => .nan
  | .negInf, _ => .nan
  | .fin a, .fin b => if b = 0 then .nan else .fin (a - b * (truncQ (a / b) : ℚ))
  | .fin a, .inf => .fin a
  | .fin a, .negInf => .fin a

/-- JavaScript `<` on numbers (`NaN` compares false). -/
def jLt : JNum → JNum → Bool
  | .nan, _ => false
  | _, .nan => false
  | .fin a, .fin b => decide (a < b)
  | .fin _, .inf => true
  | .fin _, .negInf => false
  | .inf, _ => false
  | .negInf, .negInf => false
  | .negInf, _ => true

/-- JavaScript `<=` on numbers (`NaN` compares false). -/
def jLe : JNum → JNum → Bool
  | .nan, _ => false
  | _, .nan => false
  | .fin a, .fin b => decide (a ≤ b)
  | .fin _, .inf => true
  | .fin _, .negInf => false
  | .inf, .inf => true
  | .inf, _ => false
  | .negInf, _ => true

/-- JavaScript `===` on two numbers (`NaN !== NaN`). -/
def jEq : JNum → JNum → Bool
  | .fin a, .fin b => decide (a = b)
  | .inf, .inf => true
  | .negInf, .negInf => true
  | _, _ => false

/-! ## Abstract syntax (the tagged AST variants produced by `src/parser.js`)

The parser builds plain objects tagged by a `type` string; the evaluator and
compiler dispatch on that tag.  Each tag is a constructor below.  Constructs
whose behaviour is delegated to external collaborators (http, sockets,
crypto, subscriptions) and the function/job call forms are outside the
embedded fragment. -/

/-- Parsed type annotations (`parseType` in `src/parser.js`).  `inferT`
models the `{type: 'InferType'}` marker produced for `: infer`.  The optional
constraint suffix of a named type is not read by any embedded consumer and is
omitted. -/
inductive TypeNode where
  | simpleT (value : String)
  | listT (typeRule : TypeNode)
  | dictT (keyType valueType : TypeNode)
  | optionT (typeRule : TypeNode)
  | boxT (name : String)
  | groupT (types : List TypeNode)
  | unionT (types : List TypeNode)
  | futureT (typeRule : TypeNode)
  | errorT (name : String)
  | namedT (name : String)
  | inferT
deriving Repr

/-- Binary operators of `BinaryExpr` (the 13 cases of `evalBinaryExpr` /
`compileBinaryExpr`). -/
inductive BOp where
  | andB | orB | eqB | neqB | gtB | ltB | gteB | lteB
  | addB | subB | mulB | divB | modB
deriving Repr, DecidableEq

/-- Unary operators of `NotExpr`. -/
inductive UOp where
  | notU | negU
deriving Repr, DecidableEq

/-- Expressions.  `numE` is a `Number` node (the parser stores
`parseFloat(token)`), `boolE`/`nullE` are the two shapes of a `Literal`
node, `hexE` keeps the raw hex digits (the consumers apply `parseInt(_,16)`).
`throwE` is the expression form `throw error name e`. -/
inductive Expr where
  | numE (value : ℚ)
  | hexE (value : String)
  | textE (value : String)
  | boolE (value : Bool)
  | nullE
  | identE (value : String)
  | binE (op : BOp) (left right : Expr)
  | notE (op : UOp) (expr : Expr)
  | listE (elements : List Expr)
  | dictE (entries : List (String × Expr))
  | boxE (name : String) (entries : List (String × Expr))
  | groupE (elements : List Expr)
  | throwE (name : String) (expr : Expr)
deriving Repr

/-- A `box` field: name, type annotation and optional default expression
(`parseBoxDecl`).  The stored default is the unevaluated AST node, so the
JavaScript truthiness test `!field.defaultValue` is exactly `dflt = none`. -/
structure Field where
  name : String
  ty : TypeNode
  dflt : Option Expr
deriving Repr

/-- Assignment/declaration targets (`parseNameOrSplit`). -/
inductive Target where
  | name (value : String)
  | split (names : List String)
deriving Repr, DecidableEq

/-- Match-case patterns (`parseMatchCase`).  For a `(T : x)` case the parser
evaluates the object literal `{ type: 'UnionCase', type, name }`, whose
duplicate `type` key leaves `pattern.type` equal to the parsed type — not the
string `'UnionCase'`; `unionP` records the parsed type and both consumers'
string comparisons against `pattern.type` are false for it. -/
inductive Pattern where
  | elseP
  | nameP (name : String)
  | destrP (name : String) (subNames : Option (List String))
  | unionP (ty : TypeNode) (name : String)
deriving Repr

mutual

/-- Actions (`parseAction` forms that the embedding covers; the external
boundary actions and the crypto/async forms are omitted).  `onErr` fields are
the parsed `on_error` handler `(errorName?, body)`; `catchB` is
`(name, errorName, actions)`; the parsed-but-unused `tryOnError` field of a
try action is dropped because neither consumer reads it. -/
inductive Action where
  | setA (target : Target) (value : Expr)
  | ifA (condition : Expr) (thenBranch : List Action)
        (elseBranch : Option (List Action)) (onErr : Option (Option String × List Action))
  | loopA (target : Target) (startE endE : Expr) (body : List Action)
          (onErr : Option (Option String × List Action))
  | whileA (condition : Expr) (body : List Action)
           (onErr : Option (Option String × List Action))
  | matchA (expr : Expr) (body : MatchBody) (onErr : Option (Option String × List Action))
  | tryA (tryBlock : List Action) (catchB : Option (String × String × List Action))
         (finallyB : Option (List Action))
  | returnA (ty : Option TypeNode) (value : Expr)
  | sayA (expr : Expr)
  | checkA (expr : Expr) (message : String)
  | storeA (key : String) (value : Expr)
  | forgetA (key : String) (reason : String)
deriving Repr

/-- The body of a match action: either the inline `=> action` form (tagged
`'SimpleMatch'` by the parser) or a case list. -/
inductive MatchBody where
  | simpleM (action : Action)
  | casesM (cases : List (Pattern × List Action))
deriving Repr

end

/-- Declarations (`evalNode` / `compileNode` tags covered by the embedding).
`moneyD` rules are `(ruleType, box, when?, amount?)`; map/view/entity/job/
namespacing/fn/guard/test declarations are outside the fragment. -/
inductive Decl where
  | varD (names : Target) (ty : Option TypeNode) (value : Expr)
  | boxD (name : String) (fields : List Field)
  | queueD (name : String)
  | thinkD (name : String)
  | looseD (expr : Expr)
  | targetD (target : String)
  | typeD (name : String) (ty : TypeNode)
  | errorD (name : String) (fields : List (String × TypeNode))
  | reputationD (name : String) (user : String) (score : Int)
  | moneyD (rules : List (String × Expr × Option Expr × Option Int))
  | promiseD (name : String) (needs binds : List String)
             (check : Option Expr) (enforce : Option (List Action))
deriving Repr

/-! ## Runtime values -/

/-- Runtime values.  Plain JavaScript objects are `dictV` records (so a box
value `{type: name, value: {...}}` is a two-field record); `exprV`, `actsV`
and `patV` model AST nodes stored inside runtime objects (e.g. money rules or
compile-time `Match` markers). -/
inductive Value where
  | numV (n : JNum)
  | strV (s : String)
  | boolV (b : Bool)
  | nullV
  | undefV
  | listV (l : List Value)
  | dictV (entries : List (String × Value))
  | exprV (e : Expr)
  | actsV (l : List Action)
  | patV (p : Pattern)
  | tnV (t : TypeNode)
deriving Repr

/-- Stored type table entries.  Builtins and box/error declarations store
descriptors carrying a `kind` field; `type name = T;` stores the parsed AST
node itself (which has no `kind`), modelled by `astK`. -/
inductive TypeDesc where
  | simpleKind (value : String)
  | boxKind (name : String) (fields : List Field)
  | errorKind (name : String) (fields : List (String × TypeNode))
  | astK (t : TypeNode)
deriving Repr

/-- Errors: a thrown JavaScript `Error` observed through its message, or
fuel exhaustion (modelling non-termination; never swallowed by modelled
`catch` blocks). -/
inductive Err where
  | thrown (msg : String)
  | noFuel
deriving Repr

abbrev Res (α : Type) := Except Err α

/-! ## The environment arena

`Environment` (one class in `src/environment.js`, duplicated in
`src/interpreter.js` with `define`/`get`/`assign` as the method names) is a
parent-linked chain of mutable frames.  The chain is modelled as an arena of
frames addressed by index; `createChild` appends a fresh frame whose parent
is the current index, so parent indices always point at earlier frames. -/

structure Frame where
  bindings : List (String × Value)
  types : List (String × TypeDesc)
  parent : Option Nat
deriving Repr

abbrev Arena := List Frame

/-- First-match association-list lookup (`Map.get`/`Map.has`). -/
def alook {α : Type} : List (String × α) → String → Option α
  | [], _ => none
  | (k, v) :: rest, n => if k = n then some v else alook rest n

/-- In-place update of the first matching key (`Map.set` on a present key). -/
def aset {α : Type} : List (String × α) → String → α → List (String × α)
  | [], _, _ => []
  | (k, v) :: rest, n, w => if k = n then (k, w) :: rest else (k, v) :: aset rest n w

def frameOf (a : Arena) (i : Nat) : Option Frame := a.get? i

/-- `Environment.defineVariable` (= `define` in `src/interpreter.js`): fails
iff the name is already bound in the immediate frame, otherwise inserts. -/
def defineVariable (a : Arena) (i : Nat) (n : String) (v : Value) : Res Arena :=
  match frameOf a i with
  | none => .error (.thrown ("Undefined variable " ++ n))
  | some fr =>
      if (alook fr.bindings n).isSome then
        .error (.thrown ("Variable " ++ n ++ " already defined in this scope"))
      else
        .ok (a.set i { fr with bindings := fr.bindings ++ [(n, v)] })

/-- `Environment.defineType`. -/
def defineType (a : Arena) (i : Nat) (n : String) (t : TypeDesc) : Res Arena :=
  match frameOf a i with
  | none => .error (.thrown ("Undefined type " ++ n))
  | some fr =>
      if (alook fr.types n).isSome then
        .error (.thrown ("Type " ++ n ++ " already defined in this scope"))
      else
        .ok (a.set i { fr with types := fr.types ++ [(n, t)] })

/-- Parent-chain walk of `Environment.getVariable` (= `get`), bounded by the
arena size (parent indices of well-formed arenas strictly decrease, so the
bound is never the deciding case there). -/
def getVarGo (a : Arena) (n : String) : Nat → Nat → Res Value
  | 0, _ => .error .noFuel
  | fuel + 1, i =>
      match frameOf a i with
      | none => .error (.thrown ("Undefined variable " ++ n))
      | some fr =>
          match alook fr.bindings n with
          | some v => .ok v
          | none =>
              match fr.parent with
              | some p => getVarGo a n fuel p
              | none => .error (.thrown ("Undefined variable " ++ n))

/-- `Environment.getVariable` (= `get`): lookup walking the chain outward. -/
def getVariable (a : Arena) (i : Nat) (n : String) : Res Value :=
  getVarGo a n (a.length + 1) i

/-- Parent-chain walk of `Environment.getType`. -/
def getTypeGo (a : Arena) (n : String) : Nat → Nat → Res TypeDesc
  | 0, _ => .error .noFuel
  | fuel + 1, i =>
      match frameOf a i with
      | none => .error (.thrown ("Undefined type " ++ n))
      | some fr =>
          match alook fr.types n with
          | some t => .ok t
          | none =>
              match fr.parent with
              | some p => getTypeGo a n fuel p
              | none => .error (.thrown ("Undefined type " ++ n))

/-- `Environment.getType`. -/
def getType (a : Arena) (i : Nat) (n : String) : Res TypeDesc :=
  getTypeGo a n (a.length + 1) i

/-- Parent-chain walk of `Environment.assignVariable` (= `assign`): mutates
the nearest owning frame. -/
def assignVarGo (a : Arena) (n : String) (v : Value) : Nat → Nat → Res Arena
  | 0, _ => .error .noFuel
  | fuel + 1, i =>
      match frameOf a i with
      | none => .error (.thrown ("Cannot assign to undefined variable " ++ n))
      | some fr =>
          if (alook fr.bindings n).isSome then
            .ok (a.set i { fr with bindings := aset fr.bindings n v })
          else
            match fr.parent with
            | some p => assignVarGo a n v fuel p
            | none => .error (.thrown ("Cannot assign to undefined variable " ++ n))

/-- `Environment.assignVariable` (= `assign`). -/
def assignVariable (a : Arena) (i : Nat) (n : String) (v : Value) : Res Arena :=
  assignVarGo a n v (a.length + 1) i

/-- `Environment.createChild` / `new Environment(parent)`: a fresh frame
linked to its parent; returns the extended arena and the new index. -/
def createChild (a : Arena) (i : Nat) : Arena × Nat :=
  (a ++ [{ bindings := [], types := [], parent := some i }], a.length)

/-! ## JavaScript value coercions and operators -/

/-- JavaScript `typeof`. -/
def typeofStr : Value → String
  | .numV _ => "number"
  | .strV _ => "string"
  | .boolV _ => "boolean"
  | .undefV => "undefined"
  | _ => "object"

/-- JavaScript truthiness. -/
def jsTruthy : Value → Bool
  | .boolV b => b
  | .numV (.fin q) => decide (q ≠ 0)
  | .numV .nan => false
  | .numV _ => true
  | .strV s => decide (s ≠ "")
  | .nullV => false
  | .undefV => false
  | _ => true

/-- Decimal digits of the fractional part of a non-negative rational, up to
`fuel` places (approximates JavaScript float printing for non-integers; exact
for terminating decimals within the bound). -/
def fracDigits : Nat → ℚ → String
  | 0, _ => ""
  | fuel + 1, r =>
      if r = 0 then ""
      else
        let r10 := r * 10
        let d : ℤ := ⌊r10⌋
        toString d ++ fracDigits fuel (r10 - (d : ℚ))

/-- String form of a JavaScript number (`String(n)` / template literals). -/
def numToStr : JNum → String
  | .nan => "NaN"
  | .inf => "Infinity"
  | .negInf => "-Infinity"
  | .fin q =>
      if q.den = 1 then toString q.num
      else
        (if q < 0 then "-" else "") ++
          toString ⌊|q|⌋ ++ "." ++ fracDigits 20 (|q| - (⌊|q|⌋ : ℚ))

mutual

/-- JavaScript string coercion: arrays join with `,`, plain objects (and the
modelled AST-carrying host objects) print `[object Object]`. -/
def toJSString : Value → String
  | .numV n => numToStr n
  | .strV s => s
  | .boolV b => if b then "true" else "false"
  | .nullV => "null"
  | .undefV => "undefined"
  | .listV l => toJSStringList l
  | .dictV _ => "[object Object]"
  | .exprV _ => "[object Object]"
  | .actsV _ => "[object Object]"
  | .patV _ => "[object Object]"
  | .tnV _ => "[object Object]"

/-- Comma-join of array elements for `toJSString`. -/
def toJSStringList : List Value → String
  | [] => ""
  | [v] => toJSString v
  | v :: rest => toJSString v ++ "," ++ toJSStringList rest

end

/-- Longest prefix of hexadecimal digits, as a natural number (`none` if the
first character is not a hex digit). -/
def hexPrefix : List Char → Option Nat → Option Nat
  | [], acc => acc
  | c :: rest, acc =>
      let d : Option Nat :=
        if '0' ≤ c ∧ c ≤ '9' then some (c.toNat - '0'.toNat)
        else if 'a' ≤ c ∧ c ≤ 'f' then some (c.toNat - 'a'.toNat + 10)
        else if 'A' ≤ c ∧ c ≤ 'F' then some (c.toNat - 'A'.toNat + 10)
        else none
      match d with
      | some d => hexPrefix rest (some ((acc.getD 0) * 16 + d))
      | none => acc

/-- `parseInt(s, 16)`: optional `0x`/`0X` prefix, then the longest hex-digit
prefix; `NaN` when no digit is found.  (Leading whitespace never occurs in
the lexed token text.) -/
def parseIntHex (s : String) : JNum :=
  let cs :=
    match s.toList with
    | '0' :: 'x' :: rest => rest
    | '0' :: 'X' :: rest => rest
    | cs => cs
  match hexPrefix cs none with
  | some n => .fin n
  | none => .nan

/-- Longest prefix of decimal digits with their value and count. -/
def decPrefix : List Char → Nat × Nat → Nat × Nat × List Char
  | [], acc => (acc.1, acc.2, [])
  | c :: rest, (v, k) =>
      if '0' ≤ c ∧ c ≤ '9' then decPrefix rest (v * 10 + (c.toNat - '0'.toNat), k + 1)
      else (v, k, c :: rest)

/-- `Number(string)` (used by numeric coercion of strings): empty/whitespace
is `0`, `Infinity` forms, plain hex literals, and decimal forms without an
exponent; anything else is `NaN` (exponent forms are approximated by `NaN`;
no theorem depends on them). -/
def strToNum (s : String) : JNum :=
  let t := s.trim
  if t = "" then .fin 0
  else if t = "Infinity" ∨ t = "+Infinity" then .inf
  else if t = "-Infinity" then .negInf
  else
    let (sign, cs) : ℚ × List Char :=
      match t.toList with
      | '-' :: rest => (-1, rest)
      | '+' :: rest => (1, rest)
      | cs => (1, cs)
    match cs with
    | '0' :: 'x' :: rest =>
        (match hexPrefix rest none with
         | some n => if rest.all (fun c => (hexPrefix [c] none).isSome) then .fin n else .nan
         | none => .nan)
    | _ =>
        let (ip, ik, rest) := decPrefix cs (0, 0)
        match rest with
        | [] => if ik = 0 then .nan else .fin (sign * ip)
        | '.' :: rest' =>
            let (fp, fk, rest'') := decPrefix rest' (0, 0)
            if rest'' = [] ∧ (ik + fk ≠ 0) then
              .fin (sign * ((ip : ℚ) + (fp : ℚ) / ((10 : ℚ) ^ fk)))
            else .nan
        | _ => .nan

/-- JavaScript `ToPrimitive` with the default hint: primitives pass through,
arrays and objects convert via their string form. -/
def toPrim (v : Value) : Value :=
  match v with
  | .numV _ | .strV _ | .boolV _ | .nullV | .undefV => v
  | _ => .strV (toJSString v)

/-- JavaScript `ToNumber`. -/
def toNumber (v : Value) : JNum :=
  match toPrim v with
  | .numV n => n
  | .strV s => strToNum s
  | .boolV b => .fin (if b then 1 else 0)
  | .nullV => .fin 0
  | _ => .nan

/-- JavaScript `===`.  Two object values compare by reference in JavaScript;
the structural model returns `false` for them (see the header note). -/
def strictEq : Value → Value → Bool
  | .numV a, .numV b => jEq a b
  | .strV a, .strV b => decide (a = b)
  | .boolV a, .boolV b => decide (a = b)
  | .nullV, .nullV => true
  | .undefV, .undefV => true
  | _, _ => false

/-- JavaScript `+`: string concatenation when either primitive operand is a
string, numeric addition otherwise. -/
def jsAdd (a b : Value) : Value :=
  let pa := toPrim a
  let pb := toPrim b
  match pa, pb with
  | .strV _, _ => .strV (toJSString pa ++ toJSString pb)
  | _, .strV _ => .strV (toJSString pa ++ toJSString pb)
  | _, _ => .numV (jAdd (toNumber pa) (toNumber pb))

/-- JavaScript `-`. -/
def jsSub (a b : Value) : Value := .numV (jSub (toNumber a) (toNumber b))

/-- JavaScript `*`. -/
def jsMul (a b : Value) : Value := .numV (jMul (toNumber a) (toNumber b))

/-- JavaScript `/`. -/
def jsDiv (a b : Value) : Value := .numV (jDiv (toNumber a) (toNumber b))

/-- JavaScript `%`. -/
def jsMod (a b : Value) : Value := .numV (jMod (toNumber a) (toNumber b))

/-- JavaScript `<` (lexicographic when both primitives are strings). -/
def jsLtB (a b : Value) : Bool :=
  match toPrim a, toPrim b with
  | .strV x, .strV y => decide (x < y)
  | pa, pb => jLt (toNumber pa) (toNumber pb)

/-- JavaScript `>`. -/
def jsGtB (a b : Value) : Bool :=
  match toPrim a, toPrim b with
  | .strV x, .strV y => decide (y < x)
  | pa, pb => jLt (toNumber pb) (toNumber pa)

/-- JavaScript `<=`. -/
def jsLeB (a b : Value) : Bool :=
  match toPrim a, toPrim b with
  | .strV x, .strV y => decide (x ≤ y)
  | pa, pb => jLe (toNumber pa) (toNumber pb)

/-- JavaScript `>=`. -/
def jsGeB (a b : Value) : Bool :=
  match toPrim a, toPrim b with
  | .strV x, .strV y => decide (y ≤ x)
  | pa, pb => jLe (toNumber pb) (toNumber pa)

/-- JavaScript `&&` (returns an operand, not a boolean). -/
def jsAnd (a b : Value) : Value := if jsTruthy a then b else a

/-- JavaScript `||`. -/
def jsOr (a b : Value) : Value := if jsTruthy a then a else b

/-- JavaScript `!`. -/
def jsNot (v : Value) : Value := .boolV (! jsTruthy v)

/-- JavaScript unary `-`. -/
def jsNegV (v : Value) : Value := .numV (jNeg (toNumber v))

/-- The operator dispatch of `Interpreter.evalBinaryExpr` (`left op right`,
operands already evaluated left-to-right). -/
def evalBinary : BOp → Value → Value → Value
  | .andB, l, r => jsAnd l r
  | .orB, l, r => jsOr l r
  | .eqB, l, r => .boolV (strictEq l r)
  | .neqB, l, r => .boolV (! strictEq l r)
  | .gtB, l, r => .boolV (jsGtB l r)
  | .ltB, l, r => .boolV (jsLtB l r)
  | .gteB, l, r => .boolV (jsGeB l r)
  | .lteB, l, r => .boolV (jsLeB l r)
  | .addB, l, r => jsAdd l r
  | .subB, l, r => jsSub l r
  | .mulB, l, r => jsMul l r
  | .divB, l, r => jsDiv l r
  | .modB, l, r => jsMod l r

/-- The operator dispatch of `Interpreter.evalNotExpr`. -/
def evalUnary : UOp → Value → Value
  | .notU, v => jsNot v
  | .negU, v => jsNegV v

/-! ## Structural type validation (`Environment.validateType`)

`src/environment.js` lines 143-250; the identical function is installed on
`Environment.prototype` at the bottom of `src/engine.js` and is what the
`TYPE_CHECK` opcode reaches.  The method only reads `this` and its arguments;
it is embedded as a function of the arena that does not return a new arena.

JavaScript property accesses on possibly-`undefined` intermediate values can
throw host `TypeError`s; those paths are modelled by `Err.thrown` with an
approximate message (the exact host wording is not source text; no theorem
depends on those messages). -/

/-- The `type` tag string of a parsed type node. -/
def tnTag : TypeNode → String
  | .simpleT _ => "SimpleType"
  | .listT _ => "ListType"
  | .dictT _ _ => "DictType"
  | .optionT _ => "OptionType"
  | .boxT _ => "BoxType"
  | .groupT _ => "GroupType"
  | .unionT _ => "UnionType"
  | .futureT _ => "FutureType"
  | .errorT _ => "ErrorType"
  | .namedT _ => "NamedType"
  | .inferT => "InferType"

/-- `typeNode.value` (present only on simple types). -/
def tnValue : TypeNode → Option String
  | .simpleT v => some v
  | _ => none

/-- `typeNode.name` (present on box/error/named types). -/
def tnName : TypeNode → Option String
  | .boxT n => some n
  | .errorT n => some n
  | .namedT n => some n
  | _ => none

/-- `typeNode.typeRule` (present on list/option/future types). -/
def tnTypeRule : TypeNode → Option TypeNode
  | .listT r => some r
  | .optionT r => some r
  | .futureT r => some r
  | _ => none

/-- `typeNode.types` (present on group/union type nodes). -/
def tnTypes : TypeNode → Option (List TypeNode)
  | .groupT ts => some ts
  | .unionT ts => some ts
  | _ => none

/-- `typeNode.value || typeNode.name || typeNode.type` — the registry key
`validateType` resolves (empty strings are JavaScript-falsy). -/
def tnKey (t : TypeNode) : String :=
  match tnValue t with
  | some v => if v = "" then (match tnName t with
      | some n => if n = "" then tnTag t else n
      | none => tnTag t) else v
  | none =>
      match tnName t with
      | some n => if n = "" then tnTag t else n
      | none => tnTag t

/-- `typeInfo.kind` of a stored type-table entry (absent on stored AST
nodes). -/
def tdKind : TypeDesc → Option String
  | .simpleKind _ => some "SimpleType"
  | .boxKind _ _ => some "BoxType"
  | .errorKind _ _ => some "ErrorType"
  | .astK _ => none

/-- `typeInfo.value`. -/
def tdValue : TypeDesc → Option String
  | .simpleKind v => some v
  | .astK t => tnValue t
  | _ => none

/-- `typeInfo.name`. -/
def tdName : TypeDesc → Option String
  | .boxKind n _ => some n
  | .errorKind n _ => some n
  | .astK t => tnName t
  | _ => none

/-- `typeInfo.typeRule`. -/
def tdTypeRule : TypeDesc → Option TypeNode
  | .astK t => tnTypeRule t
  | _ => none

/-- `typeInfo.keyType`. -/
def tdKeyType : TypeDesc → Option TypeNode
  | .astK (.dictT k _) => some k
  | _ => none

/-- `typeInfo.valueType`. -/
def tdValueType : TypeDesc → Option TypeNode
  | .astK (.dictT _ v) => some v
  | _ => none

/-- `typeInfo.types` (group/union member lists). -/
def tdTypes : TypeDesc → Option (List TypeNode)
  | .astK (.groupT ts) => some ts
  | .astK (.unionT ts) => some ts
  | _ => none

/-- `typeInfo.fields` read by the `BoxType` case. -/
def tdBoxFields : TypeDesc → Option (List Field)
  | .boxKind _ fs => some fs
  | _ => none

/-- `typeInfo.fields` read by the `ErrorType` case. -/
def tdErrFields : TypeDesc → Option (List (String × TypeNode))
  | .errorKind _ fs => some fs
  | _ => none

/-- The `type` tag string of a parsed expression node. -/
def exprTag : Expr → String
  | .numE _ => "Number"
  | .hexE _ => "Hex"
  | .textE _ => "Text"
  | .boolE _ => "Literal"
  | .nullE => "Literal"
  | .identE _ => "Identifier"
  | .binE _ _ _ => "BinaryExpr"
  | .notE _ _ => "NotExpr"
  | .listE _ => "ListExpr"
  | .dictE _ => "DictExpr"
  | .boxE _ _ => "BoxExpr"
  | .groupE _ => "GroupExpr"
  | .throwE _ _ => "ThrowExpr"

/-- JavaScript property read `v[n]`: throws on `null`/`undefined`, yields
the entry of a record, the `type` tag of a stored AST node, and `undefined`
(`none`) otherwise. -/
def propGet (v : Value) (n : String) : Res (Option Value) :=
  match v with
  | .nullV => .error (.thrown ("TypeError: Cannot read properties of null (reading '" ++ n ++ "')"))
  | .undefV => .error (.thrown ("TypeError: Cannot read properties of undefined (reading '" ++ n ++ "')"))
  | .dictV es => .ok (alook es n)
  | .exprV e => .ok (if n = "type" then some (.strV (exprTag e)) else none)
  | .patV p => .ok (if n = "type" then
      some (match p with
        | .elseP => .strV "Else"
        | .nameP _ => .strV "Name"
        | .destrP _ _ => .strV "Destructure"
        | .unionP ty _ => .tnV ty)
      else none)
  | _ => .ok none

/-- JavaScript `n in v`: `TypeError` unless `v` is an object. -/
def jsIn (n : String) (v : Value) : Res Bool :=
  match v with
  | .dictV es => .ok (alook es n).isSome
  | .listV _ => .ok false
  | .exprV _ => .ok (n = "type")
  | .patV _ => .ok (n = "type")
  | .actsV _ => .ok false
  | .tnV _ => .ok (n = "type")
  | _ => .error (.thrown ("TypeError: Cannot use 'in' operator to search for '" ++ n ++ "'"))

/-- The `/^(0x)?[0-9a-fA-F]+$/` test of the `address` simple type (the value
is string-coerced by `RegExp.test`). -/
def addrTest (v : Value) : Bool :=
  let isHex := fun c => ('0' ≤ c ∧ c ≤ '9') ∨ ('a' ≤ c ∧ c ≤ 'f') ∨ ('A' ≤ c ∧ c ≤ 'F')
  match (toJSString v).toList with
  | '0' :: 'x' :: rest => decide (rest ≠ []) && rest.all (fun c => decide (isHex c))
  | cs => decide (cs ≠ []) && cs.all (fun c => decide (isHex c))

/-- The `['happy','sad','neutral'].includes(value)` test of the `mood`
simple type (`includes` uses strict equality). -/
def moodTest (v : Value) : Bool :=
  strictEq v (.strV "happy") || strictEq v (.strV "sad") || strictEq v (.strV "neutral")

/-- `Array.isArray`. -/
def isArrayV : Value → Bool
  | .listV _ => true
  | _ => false

/-- The comparison `value.type === typeInfo.name` (strict equality of the
`type` property against the stored name). -/
def typeNameMatches (tyField : Option Value) (nm : Option String) : Bool :=
  match tyField, nm with
  | some (.strV s), some n => s = n
  | _, _ => false

/-- The simple-type checks of `validateType`'s `SimpleType` case: sequential
guards on `typeInfo.value`; `any` (and any unrecognised value) accepts.
`time` requires `value instanceof Date`; the model has no `Date` values, so
that guard always throws. -/
def simpleCheck (ti : TypeDesc) (v : Value) : Res Bool :=
  match tdValue ti with
  | some "num" =>
      if typeofStr v ≠ "number" then
        .error (.thrown ("Expected number, got " ++ typeofStr v))
      else .ok true
  | some "word" =>
      if typeofStr v ≠ "string" then
        .error (.thrown ("Expected string, got " ++ typeofStr v))
      else .ok true
  | some "bool" =>
      if typeofStr v ≠ "boolean" then
        .error (.thrown ("Expected boolean, got " ++ typeofStr v))
      else .ok true
  | some "time" => .error (.thrown ("Expected time, got " ++ typeofStr v))
  | some "address" =>
      if ! addrTest v then
        .error (.thrown ("Expected address, got " ++ toJSString v))
      else .ok true
  | some "mood" =>
      if ! moodTest v then
        .error (.thrown ("Expected mood, got " ++ toJSString v))
      else .ok true
  | _ => .ok true

mutual

/-- `Environment.validateType(value, typeNode)` of `src/environment.js`
(also installed on `Environment.prototype` by `src/engine.js`), with an
explicit fuel bound on recursion depth.  `tn = none` models a recursive call
on an `undefined` type node, which throws immediately. -/
def validateTypeF : Nat → Arena → Nat → Value → Option TypeNode → Res Bool
  | 0, _, _, _, _ => .error .noFuel
  | _ + 1, _, _, _, none =>
      .error (.thrown "TypeError: Cannot read properties of undefined (reading 'value')")
  | fuel + 1, a, i, v, some tn => do
      let ti ← getType a i (tnKey tn)
      match (tdKind ti).getD (tnTag tn) with
      | "SimpleType" => simpleCheck ti v
      | "ListType" =>
          match v with
          | .listV items => do
              _ ← vItemsF fuel a i items ((tdTypeRule ti).orElse (fun _ => tnTypeRule tn))
              .ok true
          | _ => .error (.thrown ("Expected list, got " ++ typeofStr v))
      | "DictType" =>
          if typeofStr v ≠ "object" ∨ isArrayV v = true then
            .error (.thrown ("Expected dict, got " ++ typeofStr v))
          else
            match v with
            | .dictV es => do
                _ ← vDictF fuel a i es ((tdKeyType ti).orElse (fun _ => tnTypeRule tn))
                      ((tdValueType ti).orElse (fun _ => tnTypeRule tn))
                .ok true
            | _ => .ok true
      | "OptionType" =>
          match v with
          | .nullV => .ok true
          | .undefV => .ok true
          | _ => do
              _ ← validateTypeF fuel a i v ((tdTypeRule ti).orElse (fun _ => tnTypeRule tn))
              .ok true
      | "BoxType" =>
          if typeofStr v ≠ "object" then
            .error (.thrown ("Expected box of type " ++ ((tdName ti).getD "undefined") ++
              ", got " ++ typeofStr v))
          else do
            let tyField ← propGet v "type"
            if typeNameMatches tyField (tdName ti) then do
              match tdBoxFields ti with
              | none => .error (.thrown "TypeError: typeInfo.fields is not iterable")
              | some fields => do
                  let inner ← propGet v "value"
                  _ ← vBoxFieldsF fuel a i ((tdName ti).getD "undefined") fields
                        (inner.getD .undefV)
                  .ok true
            else
              .error (.thrown ("Expected box of type " ++ ((tdName ti).getD "undefined") ++
                ", got " ++ (match tyField with
                  | some w => if jsTruthy w then toJSString w else typeofStr v
                  | none => typeofStr v)))
      | "GroupType" =>
          match v with
          | .listV items =>
              (match tdTypes ti with
               | none => .error (.thrown "TypeError: Cannot read properties of undefined (reading 'length')")
               | some ts =>
                  if items.length ≠ ts.length then
                    .error (.thrown ("Expected " ++ toString ts.length ++
                      " elements in group, got " ++ toString items.length))
                  else do
                    _ ← vGroupF fuel a i items ts
                    .ok true)
          | _ => .error (.thrown ("Expected group, got " ++ typeofStr v))
      | "UnionType" =>
          match (tdTypes ti).orElse (fun _ => tnTypes tn) with
          | none => .error (.thrown "TypeError: undefined is not iterable")
          | some ts => do
              let valid ← vUnionF fuel a i v ts
              if valid then .ok true
              else .error (.thrown ("Value " ++ toJSString v ++ " does not match any type in union"))
      | "FutureType" => .error (.thrown ("Expected future, got " ++ typeofStr v))
      | "ErrorType" =>
          if typeofStr v ≠ "object" then
            .error (.thrown ("Expected error of type " ++ ((tdName ti).getD "undefined")))
          else do
            let tyField ← propGet v "type"
            if typeNameMatches tyField (tdName ti) then
              match tdErrFields ti with
              | none => .error (.thrown "TypeError: typeInfo.fields is not iterable")
              | some fields => do
                  _ ← vErrFieldsF fuel a i ((tdName ti).getD "undefined") fields v
                  .ok true
            else
              .error (.thrown ("Expected error of type " ++ ((tdName ti).getD "undefined")))
      | other => .error (.thrown ("Unsupported type: " ++ other))

/-- List-element loop of the `ListType` case. -/
def vItemsF : Nat → Arena → Nat → List Value → Option TypeNode → Res Unit
  | 0, _, _, _, _ => .error .noFuel
  | _ + 1, _, _, [], _ => .ok ()
  | fuel + 1, a, i, item :: rest, tr => do
      _ ← validateTypeF fuel a i item tr
      vItemsF fuel a i rest tr

/-- Key/value loop of the `DictType` case (keys validate as string values). -/
def vDictF : Nat → Arena → Nat → List (String × Value) → Option TypeNode → Option TypeNode → Res Unit
  | 0, _, _, _, _, _ => .error .noFuel
  | _ + 1, _, _, [], _, _ => .ok ()
  | fuel + 1, a, i, (k, w) :: rest, kt, vt => do
      _ ← validateTypeF fuel a i (.strV k) kt
      _ ← validateTypeF fuel a i w vt
      vDictF fuel a i rest kt vt

/-- Positional loop of the `GroupType` case. -/
def vGroupF : Nat → Arena → Nat → List Value → List TypeNode → Res Unit
  | 0, _, _, _, _ => .error .noFuel
  | _ + 1, _, _, [], _ => .ok ()
  | _ + 1, _, _, _ :: _, [] => .ok ()
  | fuel + 1, a, i, item :: rest, t :: ts => do
      _ ← validateTypeF fuel a i item (some t)
      vGroupF fuel a i rest ts

/-- Alternative loop of the `UnionType` case: thrown validation errors are
caught and the next alternative is tried; fuel exhaustion propagates. -/
def vUnionF : Nat → Arena → Nat → Value → List TypeNode → Res Bool
  | 0, _, _, _, _ => .error .noFuel
  | _ + 1, _, _, _, [] => .ok false
  | fuel + 1, a, i, v, t :: ts =>
      match validateTypeF fuel a i v (some t) with
      | .ok _ => .ok true
      | .error .noFuel => .error .noFuel
      | .error (.thrown _) => vUnionF fuel a i v ts

/-- Field loop of the `BoxType` case: a field may be absent only if it
declares a default; present fields validate recursively.  `inner` is
`value.value`. -/
def vBoxFieldsF : Nat → Arena → Nat → String → List Field → Value → Res Unit
  | 0, _, _, _, _, _ => .error .noFuel
  | _ + 1, _, _, _, [], _ => .ok ()
  | fuel + 1, a, i, boxName, f :: rest, inner => do
      let present ← jsIn f.name inner
      if !present && f.dflt.isNone then
        .error (.thrown ("Missing field " ++ f.name ++ " in box " ++ boxName))
      else do
        if present then do
          let fv ← propGet inner f.name
          _ ← validateTypeF fuel a i (fv.getD .undefV) (some f.ty)
          vBoxFieldsF fuel a i boxName rest inner
        else
          vBoxFieldsF fuel a i boxName rest inner

/-- Field loop of the `ErrorType` case: every field must be present and is
validated recursively (fields are looked up on the value itself). -/
def vErrFieldsF : Nat → Arena → Nat → String → List (String × TypeNode) → Value → Res Unit
  | 0, _, _, _, _, _ => .error .noFuel
  | _ + 1, _, _, _, [], _ => .ok ()
  | fuel + 1, a, i, errName, (fn, ft) :: rest, v => do
      let present ← jsIn fn v
      if ! present then
        .error (.thrown ("Missing field " ++ fn ++ " in error " ++ errName))
      else do
        let fv ← propGet v fn
        _ ← validateTypeF fuel a i (fv.getD .undefV) (some ft)
        vErrFieldsF fuel a i errName rest v

end

/-! ## The interpreter's own validator (`Interpreter.validateType`)

`src/interpreter.js` lines 1039-1088 — a second, weaker validator used by
`evalVarDecl` and `evalReturnAction`: the key is `typeNode.value ||
typeNode.name` only, dispatch is on `typeInfo.kind` only, `SimpleType`
checks just num/word/bool, and the `BoxType` case checks field presence
without recursing into field types. -/

/-- Box-field presence loop of `Interpreter.validateType` (no recursion into
the field types). -/
def intBoxFieldsCheck (boxName : String) (inner : Value) : List Field → Res Unit
  | [] => .ok ()
  | f :: rest => do
      let present ← jsIn f.name inner
      if !present && f.dflt.isNone then
        .error (.thrown ("Missing field " ++ f.name ++ " in box " ++ boxName))
      else
        intBoxFieldsCheck boxName inner rest

mutual

/-- `Interpreter.validateType(value, typeNode, env)`.  A recursive call on an
`undefined` type rule (`tn = none`) throws, as does key resolution for a node
with neither `value` nor `name` (the key is then the JavaScript string
rendering `"undefined"` of the `undefined` map key, which is unbound). -/
def intValidateTypeF : Nat → Arena → Nat → Value → Option TypeNode → Res Bool
  | 0, _, _, _, _ => .error .noFuel
  | _ + 1, _, _, _, none =>
      .error (.thrown "TypeError: Cannot read properties of undefined (reading 'value')")
  | fuel + 1, a, i, v, some tn => do
      let key :=
        match tnValue tn with
        | some s => if s = "" then ((tnName tn).getD "undefined") else s
        | none => (tnName tn).getD "undefined"
      let ti ← getType a i key
      match (tdKind ti).getD "undefined" with
      | "SimpleType" =>
          (match tdValue ti with
           | some "num" =>
               if typeofStr v ≠ "number" then
                 .error (.thrown ("Expected number, got " ++ typeofStr v))
               else .ok true
           | some "word" =>
               if typeofStr v ≠ "string" then
                 .error (.thrown ("Expected string, got " ++ typeofStr v))
               else .ok true
           | some "bool" =>
               if typeofStr v ≠ "boolean" then
                 .error (.thrown ("Expected boolean, got " ++ typeofStr v))
               else .ok true
           | _ => .ok true)
      | "BoxType" =>
          if typeofStr v ≠ "object" then
            .error (.thrown ("Expected box of type " ++ ((tdName ti).getD "undefined")))
          else do
            let tyField ← propGet v "type"
            if typeNameMatches tyField (tdName ti) then
              match tdBoxFields ti with
              | none => .error (.thrown "TypeError: typeInfo.fields is not iterable")
              | some fields => do
                  let inner ← propGet v "value"
                  _ ← intBoxFieldsCheck ((tdName ti).getD "undefined") (inner.getD .undefV) fields
                  .ok true
            else
              .error (.thrown ("Expected box of type " ++ ((tdName ti).getD "undefined")))
      | "ListType" =>
          match v with
          | .listV items => do
              _ ← intVItemsF fuel a i items (tdTypeRule ti)
              .ok true
          | _ => .error (.thrown ("Expected list, got " ++ typeofStr v))
      | "DictType" =>
          if typeofStr v ≠ "object" then
            .error (.thrown ("Expected dict, got " ++ typeofStr v))
          else
            match v with
            | .dictV es => do
                _ ← intVDictF fuel a i es (tdKeyType ti) (tdValueType ti)
                .ok true
            | .listV items => do
                _ ← intVDictF fuel a i
                      ((items.enum).map (fun p => (toString p.1, p.2)))
                      (tdKeyType ti) (tdValueType ti)
                .ok true
            | _ => .ok true
      | "OptionType" =>
          match v with
          | .nullV => .ok true
          | _ => do
              _ ← intValidateTypeF fuel a i v (tdTypeRule ti)
              .ok true
      | other => .error (.thrown ("Unsupported type: " ++ other))

/-- List-element loop of the interpreter validator. -/
def intVItemsF : Nat → Arena → Nat → List Value → Option TypeNode → Res Unit
  | 0, _, _, _, _ => .error .noFuel
  | _ + 1, _, _, [], _ => .ok ()
  | fuel + 1, a, i, item :: rest, tr => do
      _ ← intValidateTypeF fuel a i item tr
      intVItemsF fuel a i rest tr

/-- Key/value loop of the interpreter validator's `DictType` case. -/
def intVDictF : Nat → Arena → Nat → List (String × Value) → Option TypeNode → Option TypeNode → Res Unit
  | 0, _, _, _, _, _ => .error .noFuel
  | _ + 1, _, _, [], _, _ => .ok ()
  | fuel + 1, a, i, (k, w) :: rest, kt, vt => do
      _ ← intValidateTypeF fuel a i (.strV k) kt
      _ ← intValidateTypeF fuel a i w vt
      intVDictF fuel a i rest kt vt

end

/-! ## The tree-walking evaluator (`src/interpreter.js`) -/

/-- Interpreter state: the environment arena and the `console.log` output
(one entry per call, holding the argument list). -/
structure ISt where
  arena : Arena
  output : List (List Value)
deriving Repr

/-- JavaScript object-property assignment `dict[key] = v` (used when
building dict/box literals): overwrite in place or append. -/
def dsetJS (es : List (String × Value)) (k : String) (v : Value) : List (String × Value) :=
  if (alook es k).isSome then aset es k v else es ++ [(k, v)]

mutual

/-- `Interpreter.evalExpr` for the embedded expression forms (pure: reads
the arena, never writes; the excluded forms — calls, lambdas, `wait`,
`recall` — are the impure/async ones). -/
def evalExpr (a : Arena) (i : Nat) : Expr → Res Value
  | .numE q => .ok (.numV (.fin q))
  | .hexE s => .ok (.numV (parseIntHex s))
  | .textE s => .ok (.strV s)
  | .boolE b => .ok (.boolV b)
  | .nullE => .ok .nullV
  | .identE n => getVariable a i n
  | .binE op l r => do
      let lv ← evalExpr a i l
      let rv ← evalExpr a i r
      .ok (evalBinary op lv rv)
  | .notE op e => do
      let v ← evalExpr a i e
      .ok (evalUnary op v)
  | .listE es => do
      let vs ← evalExprList a i es
      .ok (.listV vs)
  | .dictE ps => do
      let kvs ← evalExprPairs a i [] ps
      .ok (.dictV kvs)
  | .boxE n ps => do
      let kvs ← evalExprPairs a i [] ps
      .ok (.dictV [("type", .strV n), ("value", .dictV kvs)])
  | .groupE es => do
      let vs ← evalExprList a i es
      .ok (.listV vs)
  | .throwE n e => do
      let v ← evalExpr a i e
      .error (.thrown (n ++ ": " ++ toJSString v))

/-- Element loop for list/group literals. -/
def evalExprList (a : Arena) (i : Nat) : List Expr → Res (List Value)
  | [] => .ok []
  | e :: rest => do
      let v ← evalExpr a i e
      let vs ← evalExprList a i rest
      .ok (v :: vs)

/-- Entry loop for dict/box literals (`dict[entry.key] = value`). -/
def evalExprPairs (a : Arena) (i : Nat) (acc : List (String × Value)) :
    List (String × Expr) → Res (List (String × Value))
  | [] => .ok acc
  | (k, e) :: rest => do
      let v ← evalExpr a i e
      evalExprPairs a i (dsetJS acc k v) rest

end

/-- The destructuring loop of `evalSetAction` (`set (a, b) = e;`):
sequential `assign`s, failing when the array is too short. -/
def setSplitGo (i : Nat) (l : List Value) : Arena → Nat → List String → Res Arena
  | a, _, [] => .ok a
  | a, idx, n :: rest => do
      if idx < l.length then do
        let a' ← assignVariable a i n (l.get? idx |>.getD .undefV)
        setSplitGo i l a' (idx + 1) rest
      else
        .error (.thrown ("Not enough values to destructure at " ++ n))

/-- The destructuring loop of `evalVarDecl` (`var (a, b) = e;`): sequential
`define`s, failing when the array is too short. -/
def defineSplitGo (i : Nat) (l : List Value) : Arena → Nat → List String → Res Arena
  | a, _, [] => .ok a
  | a, idx, n :: rest => do
      if idx < l.length then do
        let a' ← defineVariable a i n (l.get? idx |>.getD .undefV)
        defineSplitGo i l a' (idx + 1) rest
      else
        .error (.thrown ("Not enough values to destructure at " ++ n))

/-- The split-target binding loop of `evalLoopAction`: each name is bound to
`[i][index]`, i.e. the counter for index 0 and `undefined` beyond. -/
def loopSplitGo (ce : Nat) (iv : Value) : Arena → Nat → List String → Res Arena
  | a, _, [] => .ok a
  | a, idx, n :: rest => do
      let a' ← defineVariable a ce n (if idx = 0 then iv else .undefV)
      loopSplitGo ce iv a' (idx + 1) rest

/-- The sub-name binding loop of a `Destructure` match case
(`value[index]`, `undefined` past the end; no length check). -/
def destrSplitGo (ce : Nat) (l : List Value) : Arena → Nat → List String → Res Arena
  | a, _, [] => .ok a
  | a, idx, n :: rest => do
      let a' ← defineVariable a ce n ((l.get? idx).getD .undefV)
      destrSplitGo ce l a' (idx + 1) rest

mutual

/-- `Interpreter.evalAction` for the embedded action forms.  State (arena
and output) is threaded through even when an error escapes: JavaScript
exceptions do not roll back mutations. -/
def evalAction : Nat → ISt → Nat → Action → ISt × Res Value
  | 0, st, _, _ => (st, .error .noFuel)
  | fuel + 1, st, i, act =>
      match act with
      | .setA target value =>
          (match evalExpr st.arena i value with
           | .error e => (st, .error e)
           | .ok v =>
              match target with
              | .name n =>
                  (match assignVariable st.arena i n v with
                   | .error e => (st, .error e)
                   | .ok a' => ({ st with arena := a' }, .ok v))
              | .split names =>
                  match v with
                  | .listV l =>
                      (match setSplitGo i l st.arena 0 names with
                       | .error e => (st, .error e)
                       | .ok a' => ({ st with arena := a' }, .ok v))
                  | _ => (st, .error (.thrown ("Expected array for destructuring, got " ++ typeofStr v))))
      | .ifA cond thenB elseB onErr =>
          -- the condition is evaluated before the try; its errors skip on_error
          (match evalExpr st.arena i cond with
           | .error e => (st, .error e)
           | .ok c =>
              let r :=
                if jsTruthy c then executeActionsGo fuel st i .nullV thenB
                else
                  match elseB with
                  | some eb => executeActionsGo fuel st i .nullV eb
                  | none => (st, .ok .nullV)
              match r with
              | (st', .error e) => handleOnError fuel st' i onErr e
              | _ => r)
      | .loopA target startE endE body onErr =>
          -- range bounds are evaluated before the try; their errors skip on_error
          (match evalExpr st.arena i startE with
           | .error e => (st, .error e)
           | .ok sv =>
              match evalExpr st.arena i endE with
              | .error e => (st, .error e)
              | .ok ev =>
                  match loopGo fuel st i target sv ev body .nullV with
                  | (st', .error e) => handleOnError fuel st' i onErr e
                  | r => r)
      | .whileA cond body onErr =>
          (match whileGo fuel st i cond body .nullV with
           | (st', .error e) => handleOnError fuel st' i onErr e
           | r => r)
      | .matchA expr body onErr =>
          -- the scrutinee is evaluated before the try
          (match evalExpr st.arena i expr with
           | .error e => (st, .error e)
           | .ok v =>
              match body with
              | .simpleM _ =>
                  -- the source tests body.type === 'inline' but the parser tags
                  -- the inline form 'SimpleMatch', so iterating the absent
                  -- body.cases throws (inside the try, hence on_error applies)
                  handleOnError fuel st i onErr
                    (.thrown "TypeError: node.body.cases is not iterable")
              | .casesM cases =>
                  match matchCases fuel st i v cases with
                  | (st', some (.error e)) => handleOnError fuel st' i onErr e
                  | (st', some (.ok r)) => (st', .ok r)
                  | (st', none) =>
                      -- the no-matching-case throw sits after the try/catch:
                      -- on_error does not apply to it
                      (st', .error (.thrown ("No matching case for value " ++ toJSString v))))
      | .tryA tb cb fb =>
          (match executeActionsGo fuel st i .nullV tb with
           | (st1, .ok v) =>
              -- `return await executeActions(tryBlock)` leaves evalTryAction
              -- from inside the try: the finally code below is not reached
              (st1, .ok v)
           | (st1, .error .noFuel) => (st1, .error .noFuel)
           | (st1, .error (.thrown m)) =>
              let afterCatch : ISt × Res Unit :=
                match cb with
                | some (nm, _, acts) =>
                    -- the declared error type name is never consulted
                    let (a2, ce) := createChild st1.arena i
                    (match defineVariable a2 ce nm (.strV m) with
                     | .error er => ({ st1 with arena := a2 }, .error er)
                     | .ok a3 =>
                        match executeActionsGo fuel { st1 with arena := a3 } ce .nullV acts with
                        | (st2, .error er) => (st2, .error er)
                        | (st2, .ok _) => (st2, .ok ()))
                | none => (st1, .ok ())
              match afterCatch with
              | (st2, .error er) => (st2, .error er)
              | (st2, .ok _) =>
                  match (match fb with
                         | some fbl => executeActionsGo fuel st2 i .nullV fbl
                         | none => (st2, .ok .nullV)) with
                  | (st3, .error er) => (st3, .error er)
                  | (st3, .ok _) =>
                      match cb with
                      | none => (st3, .error (.thrown m))
                      | some _ =>
                          -- leaving the catch clause reaches the trailing
                          -- finally block a second time, then `return null`
                          match (match fb with
                                 | some fbl => executeActionsGo fuel st3 i .nullV fbl
                                 | none => (st3, .ok .nullV)) with
                          | (st4, .error er) => (st4, .error er)
                          | (st4, .ok _) => (st4, .ok .nullV))
      | .returnA ty value =>
          (match evalExpr st.arena i value with
           | .error e => (st, .error e)
           | .ok v =>
              match ty with
              | some t =>
                  (match intValidateTypeF fuel st.arena i v (some t) with
                   | .error e => (st, .error e)
                   | .ok _ => (st, .ok v))
              | none => (st, .ok v))
      | .sayA e =>
          (match evalExpr st.arena i e with
           | .error er => (st, .error er)
           | .ok v => ({ st with output := st.output ++ [[v]] }, .ok .nullV))
      | .checkA e msg =>
          (match evalExpr st.arena i e with
           | .error er => (st, .error er)
           | .ok v =>
              if jsTruthy v then (st, .ok .nullV)
              else (st, .error (.thrown msg)))
      | .storeA k e =>
          (match evalExpr st.arena i e with
           | .error er => (st, .error er)
           | .ok v =>
              match defineVariable st.arena i k v with
              | .error er => (st, .error er)
              | .ok a' => ({ st with arena := a' }, .ok .nullV))
      | .forgetA k reason =>
          (match defineVariable st.arena i k .nullV with
           | .error er => (st, .error er)
           | .ok a' =>
              ({ st with
                  arena := a',
                  output := st.output ++ [[.strV ("Forgot key " ++ k ++ ": " ++ reason)]] },
               .ok .nullV))

/-- `Interpreter.executeActions` body: `result` starts as `null` and takes
each action's value in turn. -/
def executeActionsGo : Nat → ISt → Nat → Value → List Action → ISt × Res Value
  | 0, st, _, _, _ => (st, .error .noFuel)
  | _ + 1, st, _, acc, [] => (st, .ok acc)
  | fuel + 1, st, i, _acc, act :: rest =>
      match evalAction fuel st i act with
      | (st', .error e) => (st', .error e)
      | (st', .ok v) => executeActionsGo fuel st' i v rest

/-- The `while` loop of `evalWhileAction` (condition evaluated inside the
try, one `executeActions` per iteration, result of the last iteration). -/
def whileGo : Nat → ISt → Nat → Expr → List Action → Value → ISt × Res Value
  | 0, st, _, _, _, _ => (st, .error .noFuel)
  | fuel + 1, st, i, cond, body, acc =>
      match evalExpr st.arena i cond with
      | .error e => (st, .error e)
      | .ok c =>
          if jsTruthy c then
            match executeActionsGo fuel st i .nullV body with
            | (st', .error e) => (st', .error e)
            | (st', .ok r) => whileGo fuel st' i cond body r
          else (st, .ok acc)

/-- The `for (let i = start; i <= end; i++)` loop of `evalLoopAction`: a
fresh child frame per iteration binding the target, numeric increment. -/
def loopGo : Nat → ISt → Nat → Target → Value → Value → List Action → Value → ISt × Res Value
  | 0, st, _, _, _, _, _, _ => (st, .error .noFuel)
  | fuel + 1, st, i, target, iv, ev, body, acc =>
      if jsLeB iv ev then
        let (a', ce) := createChild st.arena i
        let bound : Res Arena :=
          match target with
          | .name n => defineVariable a' ce n iv
          | .split names => loopSplitGo ce iv a' 0 names
        match bound with
        | .error e => ({ st with arena := a' }, .error e)
        | .ok a'' =>
            match executeActionsGo fuel { st with arena := a'' } ce .nullV body with
            | (st', .error e) => (st', .error e)
            | (st', .ok r) =>
                loopGo fuel st' i target (.numV (jAdd (toNumber iv) (.fin 1))) ev body r
      else (st, .ok acc)

/-- The case loop of `evalMatchAction`.  `none` means every case fell
through (for `unionP` patterns all four tag tests are false, see `Pattern`).
A matching case runs in a fresh child frame binding the pattern name. -/
def matchCases : Nat → ISt → Nat → Value → List (Pattern × List Action) → ISt × Option (Res Value)
  | 0, st, _, _, _ => (st, some (.error .noFuel))
  | _ + 1, st, _, _, [] => (st, none)
  | fuel + 1, st, i, v, (pat, acts) :: rest =>
      match pat with
      | .elseP =>
          let (st', r) := executeActionsGo fuel st i .nullV acts
          (st', some r)
      | .nameP n =>
          let (a', ce) := createChild st.arena i
          (match defineVariable a' ce n v with
           | .error e => ({ st with arena := a' }, some (.error e))
           | .ok a'' =>
              let (st', r) := executeActionsGo fuel { st with arena := a'' } ce .nullV acts
              (st', some r))
      | .destrP n subNames =>
          let (a', ce) := createChild st.arena i
          (match defineVariable a' ce n v with
           | .error e => ({ st with arena := a' }, some (.error e))
           | .ok a'' =>
              let bound : Res Arena :=
                match subNames, v with
                | some sns, .listV l => destrSplitGo ce l a'' 0 sns
                | _, _ => .ok a''
              match bound with
              | .error e => ({ st with arena := a'' }, some (.error e))
              | .ok a3 =>
                  let (st', r) := executeActionsGo fuel { st with arena := a3 } ce .nullV acts
                  (st', some r))
      | .unionP _ _ => matchCases fuel st i v rest

/-- The shared `catch (e) { if (node.onError) ... }` pattern: run the
`on_error` body in a fresh child frame binding the error name (when
declared) to the message; rethrow when there is no handler.  Fuel exhaustion
propagates (it models divergence, not a JavaScript exception). -/
def handleOnError : Nat → ISt → Nat → Option (Option String × List Action) → Err → ISt × Res Value
  | 0, st, _, _, _ => (st, .error .noFuel)
  | _ + 1, st, _, _, .noFuel => (st, .error .noFuel)
  | fuel + 1, st, i, onErr, .thrown m =>
      match onErr with
      | none => (st, .error (.thrown m))
      | some (en, body) =>
          let (a', ce) := createChild st.arena i
          let bound : Res Arena :=
            match en with
            | some nm => defineVariable a' ce nm (.strV m)
            | none => .ok a'
          match bound with
          | .error er => ({ st with arena := a' }, .error er)
          | .ok a'' => executeActionsGo fuel { st with arena := a'' } ce .nullV body

end

/-- `Interpreter.executeActions(actions, env)`. -/
def executeActions (fuel : Nat) (st : ISt) (i : Nat) (acts : List Action) : ISt × Res Value :=
  executeActionsGo fuel st i .nullV acts

/-! ## Declaration evaluation (`Interpreter.evalNode`) -/

/-- The value a money rule is stored as: `{type, box, when, amount}` with
the AST kept for `box`/`when`. -/
def moneyRuleVal (r : String × Expr × Option Expr × Option Int) : Value :=
  .dictV [("type", .strV r.1),
          ("box", .exprV r.2.1),
          ("when", match r.2.2.1 with | some w => .exprV w | none => .nullV),
          ("amount", match r.2.2.2 with | some n => .numV (.fin n) | none => .nullV)]

/-- The rule loop of `evalMoneyDecl`: for each rule with a `when` clause,
evaluate it and on truth define `reward` from the evaluated box. -/
def moneyRulesGo (i : Nat) : Arena → List (String × Expr × Option Expr × Option Int) → Res Arena
  | a, [] => .ok a
  | a, (_, box, whenE, amount) :: rest =>
      match whenE with
      | none => moneyRulesGo i a rest
      | some w => do
          let c ← evalExpr a i w
          if jsTruthy c then do
            let bv ← evalExpr a i box
            let a' ← defineVariable a i "reward"
              (.dictV [("value", bv),
                       ("amount", match amount with | some n => .numV (.fin n) | none => .nullV)])
            moneyRulesGo i a' rest
          else
            moneyRulesGo i a rest

/-- `Interpreter.evalNode` for the embedded declaration forms. -/
def evalNode : Nat → ISt → Nat → Decl → ISt × Res Value
  | 0, st, _, _ => (st, .error .noFuel)
  | fuel + 1, st, i, d =>
      match d with
      | .varD names ty value =>
          (match evalExpr st.arena i value with
           | .error e => (st, .error e)
           | .ok v =>
              let checked : Res Unit :=
                match ty with
                | some t =>
                    if tnTag t ≠ "InferType" then
                      match intValidateTypeF fuel st.arena i v (some t) with
                      | .error e => .error e
                      | .ok _ => .ok ()
                    else .ok ()
                | none => .ok ()
              match checked with
              | .error e => (st, .error e)
              | .ok _ =>
                  match names with
                  | .name n =>
                      (match defineVariable st.arena i n v with
                       | .error e => (st, .error e)
                       | .ok a' => ({ st with arena := a' }, .ok v))
                  | .split ns =>
                      match v with
                      | .listV l =>
                          (match defineSplitGo i l st.arena 0 ns with
                           | .error e => (st, .error e)
                           | .ok a' => ({ st with arena := a' }, .ok v))
                      | _ =>
                          (st, .error (.thrown ("Expected array for destructuring, got " ++
                            typeofStr v))))
      | .boxD n fields =>
          (match defineType st.arena i n (.boxKind n fields) with
           | .error e => (st, .error e)
           | .ok a' => ({ st with arena := a' }, .ok .nullV))
      | .queueD n =>
          (match defineVariable st.arena i n
                  (.dictV [("type", .strV "Queue"), ("queue", .listV [])]) with
           | .error e => (st, .error e)
           | .ok a' => ({ st with arena := a' }, .ok .nullV))
      | .thinkD n =>
          (match getVariable st.arena i n with
           | .error e => (st, .error e)
           | .ok v =>
              ({ st with output := st.output ++ [[.strV ("Think: " ++ n), v]] }, .ok .nullV))
      | .looseD e =>
          (match evalExpr st.arena i e with
           | .error er => (st, .error er)
           | .ok v => (st, .ok v))
      | .targetD t =>
          (match defineVariable st.arena i "target" (.strV t) with
           | .error e => (st, .error e)
           | .ok a' => ({ st with arena := a' }, .ok .nullV))
      | .typeD n t =>
          (match defineType st.arena i n (.astK t) with
           | .error e => (st, .error e)
           | .ok a' => ({ st with arena := a' }, .ok .nullV))
      | .errorD n fields =>
          (match defineType st.arena i n (.errorKind n fields) with
           | .error e => (st, .error e)
           | .ok a' => ({ st with arena := a' }, .ok .nullV))
      | .reputationD n user score =>
          (match defineVariable st.arena i n
                  (.dictV [("type", .strV "Reputation"), ("user", .strV user),
                           ("score", .numV (.fin score))]) with
           | .error e => (st, .error e)
           | .ok a' => ({ st with arena := a' }, .ok .nullV))
      | .moneyD rules =>
          (match defineVariable st.arena i "money"
                  (.dictV [("type", .strV "Money"),
                           ("rules", .listV (rules.map moneyRuleVal))]) with
           | .error e => (st, .error e)
           | .ok a' =>
              match moneyRulesGo i a' rules with
              | .error e => ({ st with arena := a' }, .error e)
              | .ok a'' => ({ st with arena := a'' }, .ok .nullV))
      | .promiseD n needs binds check enforce =>
          let afterCheck : Res Unit :=
            match check with
            | some c =>
                (match evalExpr st.arena i c with
                 | .error e => .error e
                 | .ok v =>
                    if jsTruthy v then .ok ()
                    else .error (.thrown ("Promise check failed for " ++ n)))
            | none => .ok ()
          match afterCheck with
          | .error e => (st, .error e)
          | .ok _ =>
              let afterEnforce : ISt × Res Unit :=
                match enforce with
                | some acts =>
                    (match executeActionsGo fuel st i .nullV acts with
                     | (st', .error e) => (st', .error e)
                     | (st', .ok _) => (st', .ok ()))
                | none => (st, .ok ())
              match afterEnforce with
              | (st', .error e) => (st', .error e)
              | (st', .ok _) =>
                  match defineVariable st'.arena i n
                          (.dictV [("type", .strV "Promise"),
                                   ("needs", .listV (needs.map .strV)),
                                   ("binds", .listV (binds.map .strV)),
                                   ("check", match check with
                                     | some c => .exprV c
                                     | none => .nullV),
                                   ("enforce", match enforce with
                                     | some acts => .actsV acts
                                     | none => .nullV)]) with
                  | .error e => (st', .error e)
                  | .ok a' => ({ st' with arena := a' }, .ok .nullV)

/-- `Interpreter.evalProgram`: fold over the body, returning the last
statement's value. -/
def evalProgramGo : Nat → ISt → Nat → Value → List Decl → ISt × Res Value
  | 0, st, _, _, _ => (st, .error .noFuel)
  | _ + 1, st, _, acc, [] => (st, .ok acc)
  | fuel + 1, st, i, _acc, d :: rest =>
      match evalNode fuel st i d with
      | (st', .error e) => (st', .error e)
      | (st', .ok v) => evalProgramGo fuel st' i v rest

/-- The builtin simple types installed by `Interpreter.initializeBuiltins`. -/
def builtinTypes : List (String × TypeDesc) :=
  [("num", .simpleKind "num"), ("word", .simpleKind "word"), ("bool", .simpleKind "bool"),
   ("time", .simpleKind "time"), ("address", .simpleKind "address"),
   ("mood", .simpleKind "mood"), ("any", .simpleKind "any")]

/-- The interpreter's global environment (frame 0). -/
def globalArena : Arena := [{ bindings := [], types := builtinTypes, parent := none }]

/-- `Interpreter.interpret(ast)`: evaluate the program body in the global
environment. -/
def interpret (fuel : Nat) (prog : List Decl) : ISt × Res Value :=
  evalProgramGo fuel { arena := globalArena, output := [] } 0 .nullV prog

/-! ## The bytecode compiler (`Engine.compile`, `src/engine.js`)

`Engine` keeps a mutable `this.instructions` array; compilation appends, and
backpatching overwrites the `target` of earlier jump instructions.  The
embedding passes the instruction list through each compile function and
models a patch by `List.set` at the recorded index. -/

/-- The opcodes reachable from the embedded fragment. -/
inductive Op where
  | push | load | store | ret
  | add | sub | mul | div | mod
  | eq | neq | gt | lt | gte | lte
  | and | or | not | neg
  | say | check | jump | jumpIfFalse | typeCheck
  | dictSet | listAppend | throwOp | tryOp | halt
deriving Repr, DecidableEq

/-- The `value` field of an instruction: absent, a name/message string, or a
pushed runtime value. -/
inductive Operand where
  | noneO
  | nameO (s : String)
  | valO (v : Value)
deriving Repr

/-- A bytecode instruction: `{opcode, value?, target?, isType?, typeValue?,
isNull?, catchTarget?, finallyTarget?, key?, type?}`. -/
structure Instr where
  opcode : Op
  value : Operand := .noneO
  target : Nat := 0
  isType : Bool := false
  typeValue : Option TypeDesc := none
  isNull : Bool := false
  catchTarget : Nat := 0
  finallyTarget : Nat := 0
  dictKey : String := ""
  checkTy : Option TypeNode := none
deriving Repr

/-- `compileBinaryExpr`'s operator table. -/
def binOpcode : BOp → Op
  | .andB => .and
  | .orB => .or
  | .eqB => .eq
  | .neqB => .neq
  | .gtB => .gt
  | .ltB => .lt
  | .gteB => .gte
  | .lteB => .lte
  | .addB => .add
  | .subB => .sub
  | .mulB => .mul
  | .divB => .div
  | .modB => .mod

/-- The `{type:'Destructure', count}` marker pushed for split targets. -/
def destrMarker (count : Nat) : Value :=
  .dictV [("type", .strV "Destructure"), ("count", .numV (.fin count))]

mutual

/-- `Engine.compileExpr` (appends to the instruction list).
`compileGroupExpr` pops the compile-time operand stack, which is empty when
compilation is entered through `Engine.run`, so each popped element is
`undefined` and the emitted `PUSH` carries an array of `undefined`s. -/
def compileExprC : Expr → List Instr → List Instr
  | .numE q, c => c ++ [{ opcode := .push, value := .valO (.numV (.fin q)) }]
  | .hexE s, c => c ++ [{ opcode := .push, value := .valO (.numV (parseIntHex s)) }]
  | .textE s, c => c ++ [{ opcode := .push, value := .valO (.strV s) }]
  | .boolE b, c => c ++ [{ opcode := .push, value := .valO (.boolV b) }]
  | .nullE, c => c ++ [{ opcode := .push, value := .valO .nullV }]
  | .identE n, c => c ++ [{ opcode := .load, value := .nameO n }]
  | .binE op l r, c =>
      compileExprC r (compileExprC l c) ++ [{ opcode := binOpcode op }]
  | .notE op e, c =>
      compileExprC e c ++
        [{ opcode := match op with | .notU => .not | .negU => .neg }]
  | .listE es, c =>
      compileListElems es (c ++ [{ opcode := .push, value := .valO (.listV []) }])
  | .dictE ps, c =>
      compileDictEntries ps (c ++ [{ opcode := .push, value := .valO (.dictV []) }])
  | .boxE n ps, c =>
      -- DICT_SET writes on the pushed box object itself, not on its `value`
      compileDictEntries ps
        (c ++ [{ opcode := .push,
                 value := .valO (.dictV [("type", .strV n), ("value", .dictV [])]) }])
  | .groupE es, c =>
      compileGroupElems es c ++
        [{ opcode := .push, value := .valO (.listV (es.map (fun _ => .undefV))) }]
  | .throwE n e, c =>
      compileExprC e c ++ [{ opcode := .throwOp, value := .nameO n }]

/-- Element loop of `compileListExpr`: child code then `LIST_APPEND`. -/
def compileListElems : List Expr → List Instr → List Instr
  | [], c => c
  | e :: rest, c =>
      compileListElems rest (compileExprC e c ++ [{ opcode := .listAppend }])

/-- Entry loop of `compileDictExpr`/`compileBoxExpr`: child code then
`DICT_SET key`. -/
def compileDictEntries : List (String × Expr) → List Instr → List Instr
  | [], c => c
  | (k, e) :: rest, c =>
      compileDictEntries rest (compileExprC e c ++ [{ opcode := .dictSet, dictKey := k }])

/-- Element loop of `compileGroupExpr` (children emit code; the compile-time
pops contribute only `undefined`s to the later `PUSH`). -/
def compileGroupElems : List Expr → List Instr → List Instr
  | [], c => c
  | e :: rest, c => compileGroupElems rest (compileExprC e c)

end

mutual

/-- `Engine.compileAction`.  Compilation itself can throw (for the inline
match form the source reads the absent `body.cases`), hence the `Res`
result.  None of the action compilers reads the `on_error` handler. -/
def compileActionC : Action → List Instr → Res (List Instr)
  | .setA target value, c =>
      let c1 := compileExprC value c
      (match target with
       | .name n => .ok (c1 ++ [{ opcode := .store, value := .nameO n }])
       | .split names =>
          .ok ((c1 ++ [{ opcode := .push, value := .valO (destrMarker names.length) }]) ++
            names.map (fun n => { opcode := .store, value := .nameO n })))
  | .ifA cond thenB elseB _onErr, c =>
      -- compileIfAction reads neither elseless-jump shortcuts nor on_error
      let c1 := compileExprC cond c
      let jifIdx := c1.length
      let c2 := c1 ++ [{ opcode := .jumpIfFalse, target := 0 }]
      do
        let c3 ← compileActionsC thenB c2
        let jIdx := c3.length
        let c4 := c3 ++ [{ opcode := .jump, target := 0 }]
        let c5 := c4.set jifIdx { opcode := .jumpIfFalse, target := c4.length }
        let c6 ← (match elseB with
                  | some eb => compileActionsC eb c5
                  | none => .ok c5)
        .ok (c6.set jIdx { opcode := .jump, target := c6.length })
  | .loopA _target startE endE body _onErr, c =>
      -- compileLoopAction: range code, a LoopCounter marker, the body, and an
      -- unconditional backward jump (the loop counter and exit are not wired)
      let c1 := compileExprC endE (compileExprC startE c)
      let loopStart := c1.length
      let c2 := c1 ++ [{ opcode := .push,
                         value := .valO (.dictV [("type", .strV "LoopCounter")]) }]
      do
        let c3 ← compileActionsC body c2
        .ok (c3 ++ [{ opcode := .jump, target := loopStart }])
  | .whileA cond body _onErr, c =>
      let loopStart := c.length
      let c1 := compileExprC cond c
      let jifIdx := c1.length
      let c2 := c1 ++ [{ opcode := .jumpIfFalse, target := 0 }]
      do
        let c3 ← compileActionsC body c2
        let c4 := c3 ++ [{ opcode := .jump, target := loopStart }]
        .ok (c4.set jifIdx { opcode := .jumpIfFalse, target := c4.length })
  | .matchA expr body _onErr, c =>
      let c1 := compileExprC expr c
      (match body with
       | .simpleM _ =>
          -- compileMatchAction iterates node.body.cases, absent on the
          -- 'SimpleMatch' shape: compilation throws
          .error (.thrown "TypeError: Cannot read properties of undefined (reading 'forEach')")
       | .casesM cases => do
          let (c2, endJumps) ← compileMatchCasesC cases c1 []
          .ok (endJumps.foldl (fun cc idx => cc.set idx { opcode := .jump, target := cc.length }) c2))
  | .tryA tb cb fb, c =>
      let tryIdx := c.length
      let c1 := c ++ [{ opcode := .tryOp, catchTarget := 0, finallyTarget := 0 }]
      do
        let c2 ← compileActionsC tb c1
        let jumpToFinally := c2.length
        let c3 := c2 ++ [{ opcode := .jump, target := 0 }]
        let catchTgt := c3.length
        let c4 ← (match cb with
                  | some (nm, _, acts) =>
                      compileActionsC acts (c3 ++ [{ opcode := .store, value := .nameO nm }])
                  | none => .ok c3)
        let finallyTgt := c4.length
        let c5 := c4.set tryIdx
          { opcode := .tryOp, catchTarget := catchTgt, finallyTarget := finallyTgt }
        let c6 ← (match fb with
                  | some fbl => compileActionsC fbl c5
                  | none => .ok c5)
        .ok (c6.set jumpToFinally { opcode := .jump, target := c6.length })
  | .returnA ty value, c =>
      let c1 := compileExprC value c
      let c2 := match ty with
        | some t => c1 ++ [{ opcode := .typeCheck, checkTy := some t }]
        | none => c1
      .ok (c2 ++ [{ opcode := .ret }])
  | .sayA e, c => .ok (compileExprC e c ++ [{ opcode := .say }])
  | .checkA e msg, c =>
      .ok (compileExprC e c ++ [{ opcode := .check, value := .nameO msg }])
  | .storeA k e, c =>
      .ok (compileExprC e c ++ [{ opcode := .store, value := .nameO k }])
  | .forgetA k reason, c =>
      .ok (c ++ [{ opcode := .store, value := .nameO k, isNull := true },
                 { opcode := .say,
                   value := .nameO ("Forgot key " ++ k ++ ": " ++ reason) }])

/-- Fold of `compileAction` over an action list. -/
def compileActionsC : List Action → List Instr → Res (List Instr)
  | [], c => .ok c
  | a :: rest, c => do
      let c' ← compileActionC a c
      compileActionsC rest c'

/-- Case loop of `compileMatchAction`: non-`Else` cases (including the
clobbered union cases, whose `pattern.type` is an object and so never equals
`'Else'`) emit a `Match` marker push, a conditional jump over the case body,
the body, and a forward jump collected for backpatching to the shared end;
`Else` cases emit only their body. -/
def compileMatchCasesC : List (Pattern × List Action) → List Instr → List Nat →
    Res (List Instr × List Nat)
  | [], c, endJumps => .ok (c, endJumps)
  | (pat, acts) :: rest, c, endJumps =>
      match pat with
      | .elseP => do
          let c' ← compileActionsC acts c
          compileMatchCasesC rest c' endJumps
      | _ => do
          let c1 := c ++ [{ opcode := .push,
                            value := .valO (.dictV [("type", .strV "Match"),
                                                    ("pattern", .patV pat)]) }]
          let jifIdx := c1.length
          let c2 := c1 ++ [{ opcode := .jumpIfFalse, target := 0 }]
          let c3 ← compileActionsC acts c2
          let endIdx := c3.length
          let c4 := c3 ++ [{ opcode := .jump, target := 0 }]
          let c5 := c4.set jifIdx { opcode := .jumpIfFalse, target := c4.length }
          compileMatchCasesC rest c5 (endJumps ++ [endIdx])

end

/-- The trailing per-rule code of `compileMoneyDecl`: for each rule with a
`when` clause, the condition, a conditional jump whose target is computed as
`instructions.length + 3` before the jump is pushed, the box code, an amount
push and a `reward` store. -/
def compileMoneyRules : List (String × Expr × Option Expr × Option Int) → List Instr → List Instr
  | [], c => c
  | (_, box, whenE, amount) :: rest, c =>
      match whenE with
      | none => compileMoneyRules rest c
      | some w =>
          let c1 := compileExprC w c
          let c2 := c1 ++ [{ opcode := .jumpIfFalse, target := c1.length + 3 }]
          let c3 := compileExprC box c2
          let c4 := c3 ++ [{ opcode := .push,
                             value := .valO (match amount with
                               | some n => .numV (.fin n)
                               | none => .nullV) },
                           { opcode := .store, value := .nameO "reward" }]
          compileMoneyRules rest c4

/-- `Engine.compileNode` for the embedded declaration forms. -/
def compileNodeC : Decl → List Instr → Res (List Instr)
  | .varD names ty value, c =>
      let c1 := compileExprC value c
      let c2 := match ty with
        | some t =>
            if tnTag t ≠ "InferType" then
              c1 ++ [{ opcode := .typeCheck, checkTy := some t }]
            else c1
        | none => c1
      (match names with
       | .name n => .ok (c2 ++ [{ opcode := .store, value := .nameO n }])
       | .split ns =>
          .ok ((c2 ++ [{ opcode := .push, value := .valO (destrMarker ns.length) }]) ++
            ns.map (fun n => { opcode := .store, value := .nameO n })))
  | .boxD n fields, c =>
      .ok (c ++ [{ opcode := .store, value := .nameO n, isType := true,
                   typeValue := some (.boxKind n fields) }])
  | .queueD n, c =>
      .ok (c ++ [{ opcode := .push,
                   value := .valO (.dictV [("type", .strV "Queue"), ("queue", .listV [])]) },
                 { opcode := .store, value := .nameO n }])
  | .thinkD n, c =>
      .ok (c ++ [{ opcode := .load, value := .nameO n }, { opcode := .say }])
  | .looseD e, c => .ok (compileExprC e c)
  | .targetD t, c =>
      .ok (c ++ [{ opcode := .push, value := .valO (.strV t) },
                 { opcode := .store, value := .nameO "target" }])
  | .typeD n t, c =>
      .ok (c ++ [{ opcode := .store, value := .nameO n, isType := true,
                   typeValue := some (.astK t) }])
  | .errorD n fields, c =>
      .ok (c ++ [{ opcode := .store, value := .nameO n, isType := true,
                   typeValue := some (.errorKind n fields) }])
  | .reputationD n user score, c =>
      .ok (c ++ [{ opcode := .push,
                   value := .valO (.dictV [("type", .strV "Reputation"), ("user", .strV user),
                                           ("score", .numV (.fin score))]) },
                 { opcode := .store, value := .nameO n }])
  | .moneyD rules, c =>
      .ok (compileMoneyRules rules
        (c ++ [{ opcode := .push,
                 value := .valO (.dictV [("type", .strV "Money"),
                                         ("rules", .listV (rules.map moneyRuleVal))]) },
               { opcode := .store, value := .nameO "money" }]))
  | .promiseD n needs binds check enforce, c => do
      let c2 :=
        match check with
        | some chk =>
            let c1 := compileExprC chk c
            (c1 ++ [{ opcode := .jumpIfFalse, target := c1.length + 2 },
                    { opcode := .throwOp,
                      value := .nameO ("Promise check failed for " ++ n) }])
        | none => c
      let c3 ← (match enforce with
                | some acts => compileActionsC acts c2
                | none => .ok c2)
      .ok (c3 ++ [{ opcode := .push,
                    value := .valO (.dictV [("type", .strV "Promise"),
                                            ("needs", .listV (needs.map .strV)),
                                            ("binds", .listV (binds.map .strV))]) },
                  { opcode := .store, value := .nameO n }])

/-- Fold of `compileNode` over the program body (`Engine.compileProgram`). -/
def compileProgramC : List Decl → List Instr → Res (List Instr)
  | [], c => .ok c
  | d :: rest, c => do
      let c' ← compileNodeC d c
      compileProgramC rest c'

/-- `Engine.compile(ast)`: reset the instruction list, compile the program,
append `HALT`. -/
def compile (prog : List Decl) : Res (List Instr) := do
  let c ← compileProgramC prog []
  .ok (c ++ [{ opcode := .halt }])

/-! ## The stack VM (`Engine.execute` / `Engine.executeInstruction`) -/

/-- VM state.  `ip` is an integer as in the source, where jumps assign
`target - 1` before the loop's `ip++` (a backward jump to offset 0 makes it
`-1` transiently).  The operand stack is held top-first (`push` conses,
`pop` takes the head, matching `Array.push`/`Array.pop` on the end). -/
structure VMSt where
  instrs : List Instr
  ip : Int
  stack : List Value
  arena : Arena
  env : Nat
  callStack : List Int
  output : List (List Value)
deriving Repr

/-- `Array.prototype.pop`: `undefined` on an empty stack. -/
def vmPop (s : List Value) : Value × List Value :=
  match s with
  | [] => (.undefV, [])
  | v :: rest => (v, rest)

/-- The string key an instruction's `value` contributes where the source
uses it as a name or message (always a string in compiled code). -/
def operandKey : Operand → String
  | .nameO s => s
  | .valO v => toJSString v
  | .noneO => "undefined"

/-- The runtime value a `PUSH` instruction pushes. -/
def operandVal : Operand → Value
  | .valO v => v
  | .nameO s => .strV s
  | .noneO => .undefV

/-- `Engine.executeInstruction` for one instruction.  The returned state
carries any `ip` reassignment (the driving loop then increments `ip`).
Binary opcodes that pop both operands in one expression
(`pop() op pop()`, i.e. ADD/MUL/EQ/NEQ/AND/OR) receive them in reversed
order; the others bind `b = pop()` first and apply `pop() op b`.
`fuel` bounds only the embedded `validateType` recursion. -/
def vmStep (fuel : Nat) (st : VMSt) (instr : Instr) : VMSt × Res Unit :=
  match instr.opcode with
  | .push => ({ st with stack := operandVal instr.value :: st.stack }, .ok ())
  | .load =>
      (match getVariable st.arena st.env (operandKey instr.value) with
       | .error e => (st, .error e)
       | .ok v => ({ st with stack := v :: st.stack }, .ok ()))
  | .store =>
      let (v, stack') :=
        if instr.isNull then (Value.nullV, st.stack) else vmPop st.stack
      if instr.isType then
        (match defineType st.arena st.env (operandKey instr.value)
                ((instr.typeValue).getD (.astK .inferT)) with
         | .error e => ({ st with stack := stack' }, .error e)
         | .ok a' => ({ st with stack := stack', arena := a' }, .ok ()))
      else
        (match defineVariable st.arena st.env (operandKey instr.value) v with
         | .error e => ({ st with stack := stack' }, .error e)
         | .ok a' => ({ st with stack := stack', arena := a' }, .ok ()))
  | .ret =>
      -- push(pop()) is the identity except on an empty stack; popping the
      -- empty call stack leaves `ip = undefined`, which ends the loop
      let stack' := match st.stack with | [] => [Value.undefV] | s => s
      (match st.callStack with
       | [] => ({ st with stack := stack', ip := st.instrs.length, callStack := [] }, .ok ())
       | h :: t => ({ st with stack := stack', ip := h, callStack := t }, .ok ()))
  | .add =>
      let (b, s1) := vmPop st.stack
      let (a, s2) := vmPop s1
      ({ st with stack := jsAdd b a :: s2 }, .ok ())
  | .sub =>
      let (b, s1) := vmPop st.stack
      let (a, s2) := vmPop s1
      ({ st with stack := jsSub a b :: s2 }, .ok ())
  | .mul =>
      let (b, s1) := vmPop st.stack
      let (a, s2) := vmPop s1
      ({ st with stack := jsMul b a :: s2 }, .ok ())
  | .div =>
      let (b, s1) := vmPop st.stack
      let (a, s2) := vmPop s1
      ({ st with stack := jsDiv a b :: s2 }, .ok ())
  | .mod =>
      let (b, s1) := vmPop st.stack
      let (a, s2) := vmPop s1
      ({ st with stack := jsMod a b :: s2 }, .ok ())
  | .eq =>
      let (b, s1) := vmPop st.stack
      let (a, s2) := vmPop s1
      ({ st with stack := Value.boolV (strictEq b a) :: s2 }, .ok ())
  | .neq =>
      let (b, s1) := vmPop st.stack
      let (a, s2) := vmPop s1
      ({ st with stack := Value.boolV (! strictEq b a) :: s2 }, .ok ())
  | .gt =>
      let (b, s1) := vmPop st.stack
      let (a, s2) := vmPop s1
      ({ st with stack := Value.boolV (jsGtB a b) :: s2 }, .ok ())
  | .lt =>
      let (b, s1) := vmPop st.stack
      let (a, s2) := vmPop s1
      ({ st with stack := Value.boolV (jsLtB a b) :: s2 }, .ok ())
  | .gte =>
      let (b, s1) := vmPop st.stack
      let (a, s2) := vmPop s1
      ({ st with stack := Value.boolV (jsGeB a b) :: s2 }, .ok ())
  | .lte =>
      let (b, s1) := vmPop st.stack
      let (a, s2) := vmPop s1
      ({ st with stack := Value.boolV (jsLeB a b) :: s2 }, .ok ())
  | .and =>
      let (b, s1) := vmPop st.stack
      let (a, s2) := vmPop s1
      ({ st with stack := jsAnd b a :: s2 }, .ok ())
  | .or =>
      let (b, s1) := vmPop st.stack
      let (a, s2) := vmPop s1
      ({ st with stack := jsOr b a :: s2 }, .ok ())
  | .not =>
      let (v, s1) := vmPop st.stack
      ({ st with stack := jsNot v :: s1 }, .ok ())
  | .neg =>
      let (v, s1) := vmPop st.stack
      ({ st with stack := jsNegV v :: s1 }, .ok ())
  | .say =>
      let (v, s1) := vmPop st.stack
      ({ st with stack := s1, output := st.output ++ [[v]] }, .ok ())
  | .check =>
      let (v, s1) := vmPop st.stack
      if jsTruthy v then ({ st with stack := s1 }, .ok ())
      else ({ st with stack := s1 }, .error (.thrown (operandKey instr.value)))
  | .jump => ({ st with ip := (instr.target : Int) - 1 }, .ok ())
  | .jumpIfFalse =>
      let (v, s1) := vmPop st.stack
      if jsTruthy v then ({ st with stack := s1 }, .ok ())
      else ({ st with stack := s1, ip := (instr.target : Int) - 1 }, .ok ())
  | .typeCheck =>
      -- reads the stack top without popping; validation errors propagate
      (match validateTypeF fuel st.arena st.env
              ((st.stack.head?).getD .undefV) instr.checkTy with
       | .error e => (st, .error e)
       | .ok _ => (st, .ok ()))
  | .dictSet =>
      let (v, s1) := vmPop st.stack
      (match s1 with
       | .dictV es :: rest =>
          ({ st with stack := Value.dictV (dsetJS es instr.dictKey v) :: rest }, .ok ())
       | .nullV :: _ =>
          ({ st with stack := s1 },
           .error (.thrown "TypeError: Cannot set properties of null"))
       | [] =>
          ({ st with stack := s1 },
           .error (.thrown "TypeError: Cannot set properties of undefined"))
       | other :: rest =>
          -- property writes on primitives are silent no-ops
          ({ st with stack := other :: rest }, .ok ()))
  | .listAppend =>
      let (v, s1) := vmPop st.stack
      (match s1 with
       | .listV l :: rest =>
          ({ st with stack := Value.listV (l ++ [v]) :: rest }, .ok ())
       | _ =>
          ({ st with stack := s1 },
           .error (.thrown "TypeError: list.push is not a function")))
  | .throwOp =>
      let (v, s1) := vmPop st.stack
      ({ st with stack := s1 },
       .error (.thrown (operandKey instr.value ++ ": " ++ toJSString v)))
  | .tryOp =>
      -- the body calls this.executeInstructions, which does not exist: the
      -- resulting TypeError is caught by the handler's own try, the error
      -- message is pushed and control transfers to catchTarget, which the
      -- unconditional finallyTarget reassignment then overrides
      let st' := { st with
        stack := Value.strV "this.executeInstructions is not a function" :: st.stack }
      (if instr.finallyTarget ≠ 0 then
        ({ st' with ip := (instr.finallyTarget : Int) - 1 }, .ok ())
       else
        ({ st' with ip := (instr.catchTarget : Int) - 1 }, .ok ()))
  | .halt => ({ st with ip := st.instrs.length }, .ok ())

/-- The `while (this.ip < this.instructions.length)` loop of
`Engine.execute`, including the guard that the last instruction reached must
be `HALT`. -/
def vmExec : Nat → VMSt → VMSt × Res Unit
  | 0, st => (st, .error .noFuel)
  | fuel + 1, st =>
      if st.ip < (st.instrs.length : Int) then
        if st.ip < 0 then (st, .error (.thrown "TypeError: negative instruction pointer"))
        else
          match st.instrs.get? st.ip.toNat with
          | none => (st, .error (.thrown "TypeError: missing instruction"))
          | some instr =>
              if st.ip = (st.instrs.length : Int) - 1 ∧ instr.opcode ≠ .halt then
                (st, .error (.thrown "Program did not terminate with HALT"))
              else
                match vmStep fuel st instr with
                | (st', .error e) => (st', .error e)
                | (st', .ok _) => vmExec fuel { st' with ip := st'.ip + 1 }
      else (st, .ok ())

/-- The engine's environment at construction (`new Environment()` — no
builtin types, unlike the interpreter). -/
def engineArena : Arena := [{ bindings := [], types := [], parent := none }]

/-- `Engine.run(ast)`: compile, then execute from a fresh ip/stack. -/
def engineRun (fuel : Nat) (prog : List Decl) : VMSt × Res Unit :=
  match compile prog with
  | .error e =>
      ({ instrs := [], ip := 0, stack := [], arena := engineArena, env := 0,
         callStack := [], output := [] }, .error e)
  | .ok instrs =>
      vmExec fuel
        { instrs := instrs, ip := 0, stack := [], arena := engineArena, env := 0,
          callStack := [], output := [] }

/-! ## Lexer (modelled from the spec) and the parser's top-level dispatch

The tokenizer module (`src/tokenizer.js`, required by `src/parser.js` and
`src/cli.js`) is not among the provided sources; it is modelled from §4.1 of
the specification.  The parser's `parseProgram` (lines 25-48 of
`src/parser.js`) is embedded with its two declaration sub-parsers abstracted
as parameters: the theorems about it hold for every choice of sub-parser,
because the inputs at issue are rejected by the dispatch itself. -/

/-- A lexical token `{type, value, line, column}`. -/
structure Token where
  type : String
  value : String
  line : Nat
  column : Nat
deriving Repr, DecidableEq

/-- Modelled from the spec: the fixed keyword set identifiers are classified
against (§4.1 "Identifiers greedily consume letter/digit/underscore,
classified against a fixed keyword set"); the members are the words
`src/parser.js` consumes with kind `keyword`. -/
def keywordSet : List String :=
  ["namespace", "pack", "var", "fn", "box", "map", "queue", "view", "entity",
   "job", "money", "promise", "reputation", "consensus", "share", "send",
   "allow", "bridge", "think", "loose", "target", "type", "format", "guard",
   "error", "test", "set", "if", "else", "loop", "while", "match", "try",
   "catch", "finally", "return", "say", "check", "store", "forget", "http",
   "socket", "subscribe", "audit", "hash", "verify", "zk_proof", "keygen",
   "multisig", "wait", "ask", "throw", "recall", "num", "word", "bool",
   "time", "address", "mood", "any", "list", "dict", "option", "group",
   "union", "future", "infer", "true", "false", "null", "in", "to", "can",
   "when", "args", "do", "data", "gas", "life", "active", "on_error",
   "on_event", "on_message", "pick", "expect", "is", "where", "returns",
   "get", "connect", "reason", "user", "score", "threshold", "voters",
   "needs", "binds", "enforce", "min", "max", "pattern", "earn", "reward",
   "amount", "with", "signature", "for", "get_audit", "field", "needed",
   "schema", "json", "cbor", "read", "write", "run", "public", "private",
   "internal", "async", "ritual", "mold", "fee"]

/-- Character classes for the modelled lexer. -/
def isIdentStart (c : Char) : Bool :=
  ('a' ≤ c ∧ c ≤ 'z') ∨ ('A' ≤ c ∧ c ≤ 'Z') ∨ c = '_'

def isIdentChar (c : Char) : Bool :=
  isIdentStart c || ('0' ≤ c ∧ c ≤ '9')

def isDigit (c : Char) : Bool := '0' ≤ c ∧ c ≤ '9'

/-- Greedy identifier/number prefix collection. -/
def takeWhileCs (p : Char → Bool) : List Char → List Char × List Char
  | [] => ([], [])
  | c :: rest =>
      if p c then
        let (tk, rem) := takeWhileCs p rest
        (c :: tk, rem)
      else ([], c :: rest)

/-- Quoted-text scan up to an unescaped closing quote; `none` on exhaustion
(UnterminatedString). -/
def scanText : List Char → Option (List Char × List Char)
  | [] => none
  | '\\' :: c :: rest =>
      match scanText rest with
      | some (tk, rem) => some ('\\' :: c :: tk, rem)
      | none => none
  | '"' :: rest => some ([], rest)
  | c :: rest =>
      match scanText rest with
      | some (tk, rem) => some (c :: tk, rem)
      | none => none

/-- Modelled from the spec: the lexer of §4.1 (`tokenize(source) → token
sequence terminated by end-of-input`), covering whitespace skipping, `//`
comments, identifiers classified against `keywordSet`, integer/decimal
numbers, quoted text, longest-first operators (`&&`, `||`, `==`, `!=`,
`>=`, `<=`, `=>`, `..` before single characters) and punctuation symbols;
line/column tracking is 1-based.  The base64/hex literal classes and block
comments are not exercised by any theorem below. -/
def tokenizeGo : Nat → List Char → Nat → Nat → List Token → Res (List Token)
  | 0, _, _, _, _ => .error .noFuel
  | _ + 1, [], line, _, acc =>
      .ok (acc ++ [{ type := "eof", value := "", line := line, column := 0 }])
  | fuel + 1, c :: rest, line, col, acc =>
      if c = '\n' then tokenizeGo fuel rest (line + 1) 1 acc
      else if c = ' ' ∨ c = '\t' ∨ c = '\r' then tokenizeGo fuel rest line (col + 1) acc
      else if c = '/' ∧ rest.head? = some '/' then
        let (tk, rem) := takeWhileCs (fun d => d ≠ '\n') rest.tail
        tokenizeGo fuel rem line (col + 2 + tk.length)
          (acc ++ [{ type := "line-comment", value := String.mk tk, line := line, column := col }])
      else if isIdentStart c then
        let (tk, rem) := takeWhileCs isIdentChar (c :: rest)
        let w := String.mk tk
        tokenizeGo fuel rem line (col + tk.length)
          (acc ++ [{ type := if keywordSet.contains w then "keyword" else "identifier",
                     value := w, line := line, column := col }])
      else if isDigit c then
        let (tk, rem) := takeWhileCs (fun d => isDigit d || d = '.') (c :: rest)
        let w := String.mk tk
        tokenizeGo fuel rem line (col + tk.length)
          (acc ++ [{ type := if tk.contains '.' then "decimal" else "number",
                     value := w, line := line, column := col }])
      else if c = '"' then
        match scanText rest with
        | some (tk, rem) =>
            tokenizeGo fuel rem line (col + tk.length + 2)
              (acc ++ [{ type := "text", value := String.mk tk, line := line, column := col }])
        | none => .error (.thrown ("UnterminatedString at " ++ toString line ++ ":" ++ toString col))
      else
        let two := String.mk (c :: rest.take 1)
        if ["&&", "||", "==", "!=", ">=", "<=", "=>", ".."].contains two then
          tokenizeGo fuel rest.tail line (col + 2)
            (acc ++ [{ type := "operator", value := two, line := line, column := col }])
        else if ['+', '-', '*', '/', '%', '!', '<', '>'].contains c then
          tokenizeGo fuel rest line (col + 1)
            (acc ++ [{ type := "operator", value := String.mk [c], line := line, column := col }])
        else if [':', ';', ',', '(', ')', '{', '}', '[', ']', '=', '|', '.', '#', '@'].contains c then
          tokenizeGo fuel rest line (col + 1)
            (acc ++ [{ type := "symbol", value := String.mk [c], line := line, column := col }])
        else
          .error (.thrown ("Unexpected character " ++ String.mk [c] ++ " at " ++
            toString line ++ ":" ++ toString col))

/-- Modelled from the spec: `tokenize(source)`. -/
def tokenize (source : String) : Res (List Token) :=
  tokenizeGo (source.length + 1) source.toList 1 1 []

/-- `Parser.peek()`: the token at the cursor, or a synthesised end-of-input
token. -/
def peekT (ts : List Token) (pos : Nat) : Token :=
  match ts.get? pos with
  | some t => t
  | none =>
      { type := "eof", value := "",
        line := (match ts.get? (pos - 1) with | some t => t.line | none => 1),
        column := 0 }

/-- The namespace/pack declaration parsers `parseProgram` dispatches to,
abstracted as parameters (each consumes from a cursor and returns the new
cursor).  The theorems below quantify over them. -/
structure SubParsers where
  parseNamespaceP : List Token → Nat → Res Nat
  parsePackP : List Token → Nat → Res Nat

/-- `Parser.parseNote`: accept one comment token (the token must carry a
comment `type`; comment *keywords* are rejected as the source is written). -/
def parseNote (ts : List Token) (pos : Nat) : Res Nat :=
  let t := peekT ts pos
  if t.type = "line-comment" ∨ t.type = "block-comment" then .ok (pos + 1)
  else .error (.thrown ("Expected comment, got " ++ t.value ++ " at " ++
    toString t.line ++ ":" ++ toString t.column))

/-- The loop of `Parser.parseProgram` (lines 25-48 of `src/parser.js`): the
top level accepts only `namespace`/`pack` keywords and comments, and throws
on anything else.  Returns the number of top-level items parsed. -/
def parseProgramGo (sub : SubParsers) (ts : List Token) :
    Nat → Nat → Nat → Res Nat
  | 0, _, _ => .error .noFuel
  | fuel + 1, pos, count =>
      let t := peekT ts pos
      if t.type = "eof" then .ok count
      else if t.type = "keyword" then
        match t.value with
        | "namespace" => do
            let pos' ← sub.parseNamespaceP ts pos
            parseProgramGo sub ts fuel pos' (count + 1)
        | "pack" => do
            let pos' ← sub.parsePackP ts pos
            parseProgramGo sub ts fuel pos' (count + 1)
        | "line-comment" => do
            let pos' ← parseNote ts pos
            parseProgramGo sub ts fuel pos' (count + 1)
        | "block-comment" => do
            let pos' ← parseNote ts pos
            parseProgramGo sub ts fuel pos' (count + 1)
        | other =>
            .error (.thrown ("Unexpected keyword " ++ other ++ " at " ++
              toString t.line ++ ":" ++ toString t.column))
      else
        .error (.thrown ("Unexpected token " ++ t.value ++ " at " ++
          toString t.line ++ ":" ++ toString t.column))

/-- `Parser.parseProgram(tokens)`. -/
def parseProgram (sub : SubParsers) (ts : List Token) : Res Nat :=
  parseProgramGo sub ts (ts.length + 1) 0 0

/-- A vacuous sub-parser instance used to state closed facts about inputs
that `parseProgram` rejects at its own dispatch (the accompanying theorems
quantify over arbitrary sub-parsers, so nothing depends on this choice). -/
def noSubParsers : SubParsers :=
  { parseNamespaceP := fun _ pos => .ok (pos + 1),
    parsePackP := fun _ pos => .ok (pos + 1) }

/-! ## Concrete inputs used by the claim theorems -/

/-- An arena with an outer frame binding `x` and a fresh child frame:
defining `x` again in the child must shadow, not fail. -/
def shadowArena : Arena :=
  [{ bindings := [("x", .numV (.fin 1))], types := [], parent := none },
   { bindings := [], types := [], parent := some 0 }]

/-- The box fields of `box profile { name: word, age: num = 0 }` (the `age`
default is the unevaluated `Number` node). -/
def profileFields : List Field :=
  [{ name := "name", ty := .simpleT "word", dflt := none },
   { name := "age", ty := .simpleT "num", dflt := some (.numE 0) }]

/-- A global environment in which `profile` is declared. -/
def profileArena : Arena :=
  [{ bindings := [],
     types := builtinTypes ++ [("profile", .boxKind "profile" profileFields)],
     parent := none }]

/-- The value of `profile { name: "Alice" }`. -/
def aliceVal : Value :=
  .dictV [("type", .strV "profile"), ("value", .dictV [("name", .strV "Alice")])]

/-- A profile value omitting the non-defaulted `name` field. -/
def noNameVal : Value :=
  .dictV [("type", .strV "profile"), ("value", .dictV [("age", .numV (.fin 7))])]

/-- The program `var x = 1 && 2;` on which the two execution strategies
store different values for `x`. -/
def andProg : List Decl :=
  [.varD (.name "x") none (.binE .andB (.numE 1) (.numE 2))]

/-- A program whose compilation exercises the backpatched jumps: a promise
with a checked condition and an `if` inside `enforce`. -/
def jumpProg : List Decl :=
  [.promiseD "p" [] [] (some (.boolE true))
    (some [.ifA (.boolE true) [.sayA (.numE 1)] (some [.sayA (.numE 2)]) none])]

/-- The §8 example program of the specification. -/
def c8Source : String := "var x: num = 2; var y: num = 3; say x + y;"

/-- A global environment binding `x = 2` and `y = 3` (what the example's
variable declarations would establish). -/
def xyArena : Arena :=
  [{ bindings := [("x", .numV (.fin 2)), ("y", .numV (.fin 3))],
     types := builtinTypes, parent := none }]

/-- A sample VM state with one value on the operand stack. -/
def sampleVM : VMSt :=
  { instrs := [], ip := 0, stack := [.numV (.fin 1)], arena := globalArena, env := 0,
    callStack := [], output := [] }

/-- Every `JUMP`/`JUMP_IF_FALSE` instruction of a code segment has its
resolved target at most `n` (non-jump instructions all carry the default
`target := 0`, so the bound is trivial for them). -/
def JumpsBounded (c : List Instr) (n : Nat) : Prop :=
  ∀ ins ∈ c, (ins.opcode = .jump ∨ ins.opcode = .jumpIfFalse) → ins.target ≤ n

/-- Compiling the action onto any jump-bounded prefix keeps every jump
target at most the final code length, and only appends. -/
def ActionBounded (a : Action) : Prop :=
  ∀ (c c' : List Instr) (n : Nat), compileActionC a c = .ok c' → JumpsBounded c n →
    JumpsBounded c' (max n c'.length) ∧ c.length ≤ c'.length

/-- `ActionBounded` lifted over `compileActions`. -/
def ActsBounded (acts : List Action) : Prop :=
  ∀ (c c' : List Instr) (n : Nat), compileActionsC acts c = .ok c' → JumpsBounded c n →
    JumpsBounded c' (max n c'.length) ∧ c.length ≤ c'.length

/-- `ActionBounded` lifted over `compileMatchCases`. -/
def MatchCasesBounded (cs : List (Pattern × List Action)) : Prop :=
  ∀ (c : List Instr) (ej : List Nat) (c' : List Instr) (ej' : List Nat) (n : Nat),
    compileMatchCasesC cs c ej = .ok (c', ej') → JumpsBounded c n →
    JumpsBounded c' (max n c'.length) ∧ c.length ≤ c'.length

/-- The binary operators on which the interpreter and the VM agree: the VM
pops both operands of `ADD`/`MUL`/`EQ`/`NEQ`/`AND`/`OR` inside a single
expression (`pop() op pop()`), receiving them in reversed order, so exact
agreement holds for the remaining operators plus the symmetric `*`, `===`
and `!==`. -/
def vmOpOK : BOp → Bool
  | .addB => false
  | .andB => false
  | .orB => false
  | _ => true

/-- The expression fragment on which the two execution strategies coincide:
literals, identifiers, and the agreeing binary/unary operators. -/
def exprOK : Expr → Bool
  | .numE _ => true
  | .hexE _ => true
  | .textE _ => true
  | .boolE _ => true
  | .nullE => true
  | .identE _ => true
  | .binE op l r => vmOpOK op && exprOK l && exprOK r
  | .notE _ e => exprOK e
  | _ => false

/-- The declaration fragment: untyped single-name `var` declarations whose
initialiser lies in the expression fragment. -/
def declOK : Decl → Bool
  | .varD (.name _) none e => exprOK e
  | _ => false

/-- A whole program inside the agreement fragment. -/
def progOK (p : List Decl) : Bool := p.all declOK

/-- The code a fragment declaration compiles to (`compileNode` restricted to
the fragment never fails). -/
def fragDeclCode : Decl → List Instr
  | .varD (.name n) _ e =>
      compileExprC e [] ++ [{ opcode := .store, value := .nameO n }]
  | _ => []

/-- The code a fragment program compiles to. -/
def fragProgCode : List Decl → List Instr
  | [] => []
  | d :: rest => fragDeclCode d ++ fragProgCode rest

/-- Straight-line big-step: from offset `start`, consuming `k` fuel (one per
instruction), the VM reaches offset `start + k` having replaced the operand
stack by `s'`; arena, environment, call stack and output are untouched. -/
def Runs (instrs : List Instr) (aV : Arena) (cs : List Int) (out : List (List Value))
    (start k : Nat) (s s' : List Value) : Prop :=
  ∀ f : Nat, vmExec (f + k)
      { instrs := instrs, ip := (start : Int), stack := s, arena := aV, env := 0,
        callStack := cs, output := out } =
    vmExec f
      { instrs := instrs, ip := ((start + k : Nat) : Int), stack := s', arena := aV,
        env := 0, callStack := cs, output := out }

/-- Straight-line big-step ending in the given error within `k` instructions,
with the output and arena at the point of failure unchanged. -/
def RunsErr (instrs : List Instr) (aV : Arena) (cs : List Int) (out : List (List Value))
    (start k : Nat) (s : List Value) (err : Err) : Prop :=
  ∀ f : Nat, ∃ st', vmExec (f + k)
      { instrs := instrs, ip := (start : Int), stack := s, arena := aV, env := 0,
        callStack := cs, output := out } = (st', .error err) ∧
    st'.output = out ∧ st'.arena = aV

/-! ## Helper lemmas about the environment arena -/

theorem alook_append_none {α : Type} {l : List (String × α)} {n : String}
    (h : alook l n = none) (v : α) : alook (l ++ [(n, v)]) n = some v := by
  induction l with
  | nil => simp [alook]
  | cons p rest ih =>
      obtain ⟨k, w⟩ := p
      by_cases hk : k = n
      · simp [alook, hk] at h
      · simp only [alook, List.cons_append, if_neg hk] at h ⊢
        exact ih h

theorem frameOf_lt {a : Arena} {i : Nat} {fr : Frame} (h : frameOf a i = some fr) :
    i < a.length := by
  by_contra hn
  rw [frameOf, List.get?_eq_none.mpr (le_of_not_lt hn)] at h
  exact Option.noConfusion h

theorem frameOf_set_self {a : Arena} {i : Nat} {fr : Frame} (fr' : Frame)
    (h : frameOf a i = some fr) : frameOf (a.set i fr') i = some fr' := by
  rw [frameOf, List.get?_set_eq_of_lt fr' (frameOf_lt h)]

/-- After a successful fresh `define`, an immediate lookup returns the new
value. -/
theorem getVariable_after_define {a : Arena} {i : Nat} {fr : Frame} {n : String} {v : Value}
    (hfr : frameOf a i = some fr) (hfresh : alook fr.bindings n = none) :
    getVariable (a.set i { fr with bindings := fr.bindings ++ [(n, v)] }) i n = .ok v := by
  unfold getVariable getVarGo
  rw [frameOf_set_self _ hfr]
  simp [alook_append_none hfresh]

/-- `defineVariable` on a frame not yet binding the name. -/
theorem defineVariable_fresh {a : Arena} {i : Nat} {fr : Frame} {n : String} (v : Value)
    (hfr : frameOf a i = some fr) (hfresh : alook fr.bindings n = none) :
    defineVariable a i n v = .ok (a.set i { fr with bindings := fr.bindings ++ [(n, v)] }) := by
  unfold defineVariable
  rw [hfr]
  simp [hfresh]

/-- `defineVariable` on a frame already binding the name. -/
theorem defineVariable_dup {a : Arena} {i : Nat} {fr : Frame} {n : String} {w : Value} (v : Value)
    (hfr : frameOf a i = some fr) (hdup : alook fr.bindings n = some w) :
    defineVariable a i n v =
      .error (.thrown ("Variable " ++ n ++ " already defined in this scope")) := by
  unfold defineVariable
  rw [hfr]
  simp [hdup]

/-! ## C6 — duplicate bindings are detected in the immediate scope only -/

/-- C6: `define(name, value)` fails with the duplicate-binding error exactly
when the name is already bound in the immediate frame — bindings of ancestor
frames play no role, since only the frame at the environment's own index is
consulted — and after a successful define, looking the name up from that
environment returns the newly bound (shadowing) value. -/
theorem c6_define_immediate_scope (a : Arena) (i : Nat) (n : String) (v : Value) (fr : Frame)
    (hfr : frameOf a i = some fr) :
    ((∃ m, defineVariable a i n v = .error m) ↔ (alook fr.bindings n).isSome) ∧
    (∀ a', defineVariable a i n v = .ok a' → getVariable a' i n = .ok v) := by
  constructor
  · constructor
    · intro ⟨m, hm⟩
      by_cases hb : (alook fr.bindings n).isSome
      · exact hb
      · rw [defineVariable_fresh v hfr (Option.not_isSome_iff_eq_none.mp hb)] at hm
        exact Except.noConfusion hm
    · intro hb
      obtain ⟨w, hw⟩ := Option.isSome_iff_exists.mp hb
      exact ⟨_, defineVariable_dup v hfr hw⟩
  · intro a' ha'
    by_cases hb : (alook fr.bindings n).isSome
    · obtain ⟨w, hw⟩ := Option.isSome_iff_exists.mp hb
      rw [defineVariable_dup v hfr hw] at ha'
      exact Except.noConfusion ha'
    · have hfresh := Option.not_isSome_iff_eq_none.mp hb
      rw [defineVariable_fresh v hfr hfresh] at ha'
      cases ha'
      exact getVariable_after_define hfr hfresh

/-- C6 witness: in a child frame whose parent already binds `x`, defining
`x` succeeds (the ancestor binding causes no failure) and the lookup then
returns the shadowing value. -/
theorem c6_witness :
    frameOf shadowArena 1 = some { bindings := [], types := [], parent := some 0 } ∧
    (((∃ m, defineVariable shadowArena 1 "x" (.numV (.fin 2)) = .error m) ↔
        (alook ([] : List (String × Value)) "x").isSome) ∧
      (∀ a', defineVariable shadowArena 1 "x" (.numV (.fin 2)) = .ok a' →
        getVariable a' 1 "x" = .ok (.numV (.fin 2)))) :=
  ⟨rfl, c6_define_immediate_scope shadowArena 1 "x" (.numV (.fin 2)) _ rfl⟩

/-! ## C10 — `store` creates a binding via `define` -/

/-- C10: `evalStoreAction` evaluates the value and then calls
`env.define(key, value)` on the current frame (not an external store), so a
second `store` with the same key in the same scope throws the
already-defined error after creating the first binding; the first stored
value remains retrievable unchanged. -/
theorem c10_store_defines (f : Nat) (st : ISt) (i : Nat) (k : String) (e1 e2 : Expr)
    (v1 v2 : Value) (fr : Frame)
    (hfr : frameOf st.arena i = some fr)
    (hfresh : alook fr.bindings k = none)
    (h1 : evalExpr st.arena i e1 = .ok v1)
    (h2 : evalExpr (st.arena.set i { fr with bindings := fr.bindings ++ [(k, v1)] }) i e2 = .ok v2) :
    executeActions (f + 3) st i [.storeA k e1, .storeA k e2] =
      ({ st with arena := st.arena.set i { fr with bindings := fr.bindings ++ [(k, v1)] } },
       .error (.thrown ("Variable " ++ k ++ " already defined in this scope"))) ∧
    getVariable (st.arena.set i { fr with bindings := fr.bindings ++ [(k, v1)] }) i k = .ok v1 := by
  have hstep : f + 3 = (f + 2) + 1 := rfl
  have hstep2 : f + 2 = (f + 1) + 1 := rfl
  constructor
  · rw [executeActions, hstep]
    simp only [executeActionsGo]
    rw [hstep2]
    simp only [evalAction, h1, defineVariable_fresh v1 hfr hfresh]
    simp only [executeActionsGo, evalAction, h2]
    rw [defineVariable_dup v2 (frameOf_set_self _ hfr) (alook_append_none hfresh v1)]
  · exact getVariable_after_define hfr hfresh

/-- C10 witness: two `store("answer", _)` actions in the global scope; the
second throws and the first value survives. -/
theorem c10_witness :
    executeActions 3 { arena := globalArena, output := [] } 0
        [.storeA "answer" (.numE 1), .storeA "answer" (.numE 2)] =
      ({ arena := [{ bindings := [("answer", .numV (.fin 1))], types := builtinTypes,
                     parent := none }], output := [] },
       .error (.thrown "Variable answer already defined in this scope")) ∧
    getVariable [{ bindings := [("answer", .numV (.fin 1))], types := builtinTypes,
                   parent := none }] 0 "answer" = .ok (.numV (.fin 1)) := by
  have h := c10_store_defines 0 { arena := globalArena, output := [] } 0 "answer"
    (.numE 1) (.numE 2) (.numV (.fin 1)) (.numV (.fin 2))
    { bindings := [], types := builtinTypes, parent := none } rfl rfl rfl rfl
  exact h

/-! ## C2 — the finally block is skipped on the normal path (code bug) -/

/-- C2 (code bug): `evalTryAction` returns from inside its own `try`
(`return await executeActions(tryBlock)`), so when the try block completes
normally the trailing finally code is dead: here a try with an empty body
and `finally { say 7; }` produces no output at all.  The second conjunct
shows the other missed exit path: when the catch block's own actions throw,
the finally block is skipped as well (the output stays empty; the error
escaping is the catch block's).  The spec's "finally always runs" is the
evident intent (the unreachable trailing `if (node.finallyBlock)` block
exists precisely to run it). -/
theorem c2_finally_not_run :
    evalAction 5 { arena := globalArena, output := [] } 0
        (.tryA [] none (some [.sayA (.numE 7)])) =
      ({ arena := globalArena, output := [] }, .ok .nullV) ∧
    evalAction 9 { arena := globalArena, output := [] } 0
        (.tryA [.checkA (.boolE false) "boom"]
          (some ("e", "any_err", [.checkA (.boolE false) "inner"]))
          (some [.sayA (.numE 7)])) =
      ({ arena := globalArena ++ [{ bindings := [("e", .strV "boom")], types := [],
                                    parent := some 0 }],
         output := [] },
       .error (.thrown "inner")) := by
  constructor <;>
    norm_num [evalAction, executeActionsGo, evalExpr, jsTruthy, createChild,
      defineVariable, frameOf, globalArena, alook, bind, Except.bind]

/-! ## C3 — division/modulo by zero yields a value, not an error -/

/-- C3 counterexample: evaluating `2 / 0` succeeds with the ordinary numeric
value `Infinity` (and `2 % 0` with `NaN`); the `DIV` opcode likewise pushes
`Infinity` and reports no error — contradicting the claim that execution
fails with a runtime error. -/
theorem c3_counterexample :
    evalExpr globalArena 0 (.binE .divB (.numE 2) (.numE 0)) = .ok (.numV .inf) ∧
    evalExpr globalArena 0 (.binE .modB (.numE 2) (.numE 0)) = .ok (.numV .nan) ∧
    vmStep 1 { sampleVM with stack := [.numV (.fin 0), .numV (.fin 2)] } { opcode := .div } =
      ({ sampleVM with stack := [.numV .inf] }, .ok ()) := by
  refine ⟨?_, ?_, ?_⟩ <;>
    norm_num [evalExpr, evalBinary, jsDiv, jsMod, toNumber, toPrim, jDiv, jMod,
      vmStep, vmPop, bind, Except.bind, sampleVM]

/-- C3 amended: for every numeric left operand, division by zero evaluates
to `Infinity`, `-Infinity` or `NaN` by sign (and modulo by zero to `NaN`) in
both the evaluator and the VM — an ordinary language value each time; no
error outcome exists on these paths. -/
theorem c3_div_by_zero_is_value (l : ℚ) (a : Arena) (i : Nat) (s : List Value) (st : VMSt)
    (f : Nat) :
    evalExpr a i (.binE .divB (.numE l) (.numE 0)) =
      .ok (.numV (if 0 < l then .inf else if l < 0 then .negInf else .nan)) ∧
    evalExpr a i (.binE .modB (.numE l) (.numE 0)) = .ok (.numV .nan) ∧
    vmStep f { st with stack := .numV (.fin 0) :: .numV (.fin l) :: s } { opcode := .div } =
      ({ st with stack := .numV (if 0 < l then .inf else if l < 0 then .negInf else .nan) :: s },
       .ok ()) ∧
    vmStep f { st with stack := .numV (.fin 0) :: .numV (.fin l) :: s } { opcode := .mod } =
      ({ st with stack := .numV .nan :: s }, .ok ()) := by
  have hdiv : jDiv (.fin l) (.fin 0) =
      (if 0 < l then .inf else if l < 0 then .negInf else .nan) := by
    rcases lt_trichotomy l 0 with h | h | h
    · simp [jDiv, h, not_lt_of_lt h, ne_of_lt h]
    · simp [jDiv, h]
    · simp [jDiv, h, not_lt_of_gt h, ne_of_gt h]
  refine ⟨?_, ?_, ?_, ?_⟩ <;>
    simp [evalExpr, evalBinary, jsDiv, jsMod, toNumber, toPrim, jMod,
      vmStep, vmPop, bind, Except.bind, hdiv]

/-! ## C7 — validateType is pure and deterministic -/

/-- C7: the embedding of `Environment.validateType` is a function of the
arena, value and descriptor alone — the source method performs no writes, so
it embeds without returning a new arena, and two calls on identical
arguments agree definitionally; accordingly the `TYPE_CHECK` opcode, whose
only work is this validation, leaves the entire VM state (stack, arena,
environment, output) unchanged whether validation succeeds or throws. -/
theorem c7_validate_pure :
    (∀ (f : Nat) (a : Arena) (i : Nat) (v₁ v₂ : Value) (t₁ t₂ : Option TypeNode),
       v₁ = v₂ → t₁ = t₂ →
       validateTypeF f a i v₁ t₁ = validateTypeF f a i v₂ t₂) ∧
    (∀ (f : Nat) (st : VMSt) (ins : Instr), ins.opcode = .typeCheck →
       (vmStep f st ins).1 = st) := by
  constructor
  · intro f a i v₁ v₂ t₁ t₂ h1 h2
    rw [h1, h2]
  · intro f st ins h
    simp only [vmStep, h]
    cases hv : validateTypeF f st.arena st.env ((st.stack.head?).getD .undefV) ins.checkTy <;>
      simp [hv]

/-- C7 witness. -/
theorem c7_witness :
    validateTypeF 5 globalArena 0 (.numV (.fin 1)) (some (.simpleT "num")) =
      validateTypeF 5 globalArena 0 (.numV (.fin 1)) (some (.simpleT "num")) ∧
    (vmStep 5 sampleVM { opcode := .typeCheck, checkTy := some (.simpleT "num") }).1 =
      sampleVM :=
  ⟨c7_validate_pure.1 5 globalArena 0 _ _ _ _ rfl rfl,
   c7_validate_pure.2 5 sampleVM _ rfl⟩

/-! ## C9 — the interpreter's catch ignores the declared error type -/

theorem set_concat_length {α : Type} (l : List α) (x y : α) :
    (l ++ [x]).set l.length y = l ++ [y] := by
  induction l with
  | nil => rfl
  | cons h t ih => simp [List.set, ih]

/-- Defining a name in a freshly appended frame always succeeds and writes
that frame. -/
theorem defineVariable_concat (a : Arena) (n : String) (v : Value) (p : Option Nat) :
    defineVariable (a ++ [{ bindings := [], types := [], parent := p }]) a.length n v =
      .ok (a ++ [{ bindings := [(n, v)], types := [], parent := p }]) := by
  unfold defineVariable frameOf
  rw [List.get?_concat_length]
  simp only [alook, Option.isSome_none, Bool.false_eq_true, if_false]
  rw [set_concat_length]
  rfl

/-- C9: when the try block throws, `evalTryAction` with a catch block runs
the catch actions in a fresh child frame binding the catch variable to the
error's message — the right-hand side below never consults the declared
error-type name `en`, so any thrown error is caught regardless of whether
its name matches — and (second conjunct) when the catch actions complete
normally (no finally block present), the whole try action returns `null`
rather than rethrowing the original error. -/
theorem c9_catch_runs_regardless (f : Nat) (st st₁ : ISt) (i : Nat)
    (tb : List Action) (n en : String) (acts : List Action) (fb : Option (List Action))
    (m : String)
    (h : executeActionsGo f st i .nullV tb = (st₁, .error (.thrown m))) :
    (evalAction (f + 1) st i (.tryA tb (some (n, en, acts)) fb) =
      (match executeActionsGo f
          { st₁ with arena := st₁.arena ++ [{ bindings := [(n, .strV m)], types := [],
                                              parent := some i }] }
          st₁.arena.length .nullV acts with
       | (st₂, .error er) => (st₂, .error er)
       | (st₂, .ok _) =>
          match (match fb with
                 | some fbl => executeActionsGo f st₂ i .nullV fbl
                 | none => (st₂, .ok .nullV)) with
          | (st₃, .error er) => (st₃, .error er)
          | (st₃, .ok _) =>
              match (match fb with
                     | some fbl => executeActionsGo f st₃ i .nullV fbl
                     | none => (st₃, .ok .nullV)) with
              | (st₄, .error er) => (st₄, .error er)
              | (st₄, .ok _) => (st₄, .ok .nullV))) ∧
    (∀ st₂ v₂,
      executeActionsGo f
          { st₁ with arena := st₁.arena ++ [{ bindings := [(n, .strV m)], types := [],
                                              parent := some i }] }
          st₁.arena.length .nullV acts = (st₂, .ok v₂) →
      fb = none →
      evalAction (f + 1) st i (.tryA tb (some (n, en, acts)) fb) = (st₂, .ok .nullV)) := by
  have hmain :
      evalAction (f + 1) st i (.tryA tb (some (n, en, acts)) fb) =
        (match executeActionsGo f
            { st₁ with arena := st₁.arena ++ [{ bindings := [(n, .strV m)], types := [],
                                                parent := some i }] }
            st₁.arena.length .nullV acts with
         | (st₂, .error er) => (st₂, .error er)
         | (st₂, .ok _) =>
            match (match fb with
                   | some fbl => executeActionsGo f st₂ i .nullV fbl
                   | none => (st₂, .ok .nullV)) with
            | (st₃, .error er) => (st₃, .error er)
            | (st₃, .ok _) =>
                match (match fb with
                       | some fbl => executeActionsGo f st₃ i .nullV fbl
                       | none => (st₃, .ok .nullV)) with
                | (st₄, .error er) => (st₄, .error er)
                | (st₄, .ok _) => (st₄, .ok .nullV)) := by
    simp only [evalAction, h, createChild]
    rw [defineVariable_concat]
    dsimp only
    rcases hgo : executeActionsGo f
        { st₁ with arena := st₁.arena ++ [{ bindings := [(n, .strV m)], types := [],
                                            parent := some i }] }
        st₁.arena.length .nullV acts with ⟨st₂', r⟩
    cases r <;> rfl
  refine ⟨hmain, ?_⟩
  intro st₂ v₂ hc hfb
  subst hfb
  rw [hmain, hc]

/-- C9 witness: the thrown error `boom` is caught by a catch clause
declaring the unrelated error type `low_trust`; the catch body prints the
bound message and the error does not escape. -/
theorem c9_witness :
    executeActionsGo 2 { arena := globalArena, output := [] } 0 .nullV
        [.checkA (.boolE false) "boom"] =
      ({ arena := globalArena, output := [] }, .error (.thrown "boom")) ∧
    evalAction 3 { arena := globalArena, output := [] } 0
        (.tryA [.checkA (.boolE false) "boom"]
          (some ("e", "low_trust", [.sayA (.identE "e")])) none) =
      ({ arena := globalArena ++ [{ bindings := [("e", .strV "boom")], types := [],
                                    parent := some 0 }],
         output := [[.strV "boom"]] }, .ok .nullV) := by
  have hb : executeActionsGo 2 { arena := globalArena, output := [] } 0 .nullV
      [.checkA (.boolE false) "boom"] =
      ({ arena := globalArena, output := [] }, .error (.thrown "boom")) := by
    norm_num [executeActionsGo, evalAction, evalExpr, jsTruthy]
  have h := c9_catch_runs_regardless 2 { arena := globalArena, output := [] }
    { arena := globalArena, output := [] } 0 [.checkA (.boolE false) "boom"]
    "e" "low_trust" [.sayA (.identE "e")] none "boom" hb
  refine ⟨hb, ?_⟩
  rw [h.1]
  norm_num [executeActionsGo, evalAction, evalExpr, getVariable, getVarGo, globalArena,
    frameOf, alook, List.get?_concat_length]

/-! ## C5 — box validation: matching name, non-defaulted fields present -/

/-- When the box-field loop succeeds, every field was either present (and
its value validated recursively against the field's type at some fuel) or
carries a declared default. -/
theorem vbox_ok_fields (a : Arena) (i : Nat) (bn : String) :
    ∀ (fields : List Field) (f : Nat) (inner : Value),
      vBoxFieldsF f a i bn fields inner = .ok () →
      ∀ fld ∈ fields,
        ∃ p, jsIn fld.name inner = .ok p ∧
          (p = false → fld.dflt.isSome = true) ∧
          (p = true → ∃ fv b f', propGet inner fld.name = .ok fv ∧
            validateTypeF f' a i (fv.getD .undefV) (some fld.ty) = .ok b) := by
  intro fields
  induction fields with
  | nil =>
      intro f inner h fld hm
      cases hm
  | cons fld0 rest ih =>
      intro f inner h fld hm
      match f with
      | 0 => simp [vBoxFieldsF] at h
      | f + 1 =>
        simp only [vBoxFieldsF, bind, Except.bind] at h
        cases hin : jsIn fld0.name inner with
        | error e => rw [hin] at h; cases h
        | ok p =>
          rw [hin] at h
          dsimp only at h
          cases hp : p with
          | false =>
            subst hp
            cases hd : fld0.dflt.isNone with
            | true => simp [hd] at h
            | false =>
              simp only [hd, Bool.not_false, Bool.true_and, Bool.false_eq_true,
                if_false] at h
              rcases List.mem_cons.mp hm with hm | hm
              · subst hm
                refine ⟨false, hin, fun _ => ?_, fun hcon => by cases hcon⟩
                cases hopt : fld.dflt with
                | none => rw [hopt] at hd; simp at hd
                | some d => simp [hopt]
              · exact ih f inner h fld hm
          | true =>
            subst hp
            simp only [Bool.not_true, Bool.false_and, Bool.false_eq_true, if_false,
              if_true] at h
            cases hpg : propGet inner fld0.name with
            | error e => rw [hpg] at h; cases h
            | ok fv =>
              rw [hpg] at h
              dsimp only at h
              cases hvt : validateTypeF f a i (fv.getD .undefV) (some fld0.ty) with
              | error e => rw [hvt] at h; cases h
              | ok b =>
                rw [hvt] at h
                dsimp only at h
                rcases List.mem_cons.mp hm with hm | hm
                · subst hm
                  refine ⟨true, hin, fun hcon => ?_, fun _ => ⟨fv, b, f, hpg, hvt⟩⟩
                  cases hcon
                · exact ih f inner h fld hm

/-- C5: (1) whenever `validateType` accepts a value against a registered box
descriptor, the value's `type` property strictly equals the box name and the
box-field loop accepted the value's `value` payload — so every field is
present (with its value recursively validated against the field's type) or
defaulted; (2) the loop never accepts when a field with no default is absent
from the payload; (3,4) concretely, against
`box profile { name: word, age: num = 0 }` the value
`profile { name: "Alice" }` validates (`age` defaults) while a profile value
omitting `name` fails with the missing-field error. -/
theorem c5_box_validation :
    (∀ (f : Nat) (a : Arena) (i : Nat) (v : Value) (tn : TypeNode) (bn : String)
       (fields : List Field) (b : Bool),
       getType a i (tnKey tn) = .ok (.boxKind bn fields) →
       validateTypeF (f + 1) a i v (some tn) = .ok b →
       ∃ tyField inner,
         propGet v "type" = .ok tyField ∧
         typeNameMatches tyField (some bn) = true ∧
         propGet v "value" = .ok inner ∧
         vBoxFieldsF f a i bn fields (inner.getD .undefV) = .ok () ∧
         ∀ fld ∈ fields,
           ∃ p, jsIn fld.name (inner.getD .undefV) = .ok p ∧
             (p = false → fld.dflt.isSome = true) ∧
             (p = true → ∃ fv b' f', propGet (inner.getD .undefV) fld.name = .ok fv ∧
               validateTypeF f' a i (fv.getD .undefV) (some fld.ty) = .ok b')) ∧
    (∀ (f : Nat) (a : Arena) (i : Nat) (bn : String) (fields : List Field)
       (inner : Value) (fld : Field),
       fld ∈ fields → fld.dflt = none → jsIn fld.name inner = .ok false →
       vBoxFieldsF f a i bn fields inner ≠ .ok ()) ∧
    validateTypeF 10 profileArena 0 aliceVal (some (.namedT "profile")) = .ok true ∧
    validateTypeF 10 profileArena 0 noNameVal (some (.namedT "profile")) =
      .error (.thrown "Missing field name in box profile") := by
  refine ⟨?_, ?_, ?_, ?_⟩
  · intro f a i v tn bn fields b hg hv
    simp only [validateTypeF, hg, bind, Except.bind, tdKind, tdName, tdBoxFields,
      tnTag, Option.getD_some] at hv
    by_cases hobj : typeofStr v = "object"
    · rw [if_neg (by simp [hobj])] at hv
      cases hpt : propGet v "type" with
      | error e => rw [hpt] at hv; cases hv
      | ok tyField =>
        rw [hpt] at hv
        dsimp only at hv
        cases hmatch : typeNameMatches tyField (some bn) with
        | false => simp [hmatch] at hv
        | true =>
          simp only [hmatch, if_true] at hv
          cases hpv : propGet v "value" with
          | error e => rw [hpv] at hv; cases hv
          | ok inner =>
            rw [hpv] at hv
            dsimp only at hv
            cases hloop : vBoxFieldsF f a i bn fields (inner.getD .undefV) with
            | error e => rw [hloop] at hv; cases hv
            | ok u =>
              exact ⟨tyField, inner, rfl, hmatch, rfl,
                by cases u; exact hloop,
                vbox_ok_fields a i bn fields f (inner.getD .undefV)
                  (by cases u; exact hloop)⟩
    · rw [if_pos hobj] at hv
      cases hv
  · intro f a i bn fields inner fld hmem hdflt habs hok
    obtain ⟨p, hin, hfalse, _⟩ :=
      vbox_ok_fields a i bn fields f inner hok fld hmem
    rw [habs] at hin
    cases hin
    have := hfalse rfl
    rw [hdflt] at this
    simp at this
  · simp [validateTypeF, vBoxFieldsF, getType, getTypeGo, profileArena, profileFields,
      aliceVal, tnKey, tnValue, tnName, tnTag, frameOf, alook, builtinTypes, typeofStr,
      propGet, jsIn, typeNameMatches, tdKind, tdName, tdBoxFields, simpleCheck, tdValue,
      bind, Except.bind, Option.getD]
  · simp [validateTypeF, vBoxFieldsF, getType, getTypeGo, profileArena, profileFields,
      noNameVal, tnKey, tnValue, tnName, tnTag, frameOf, alook, builtinTypes, typeofStr,
      propGet, jsIn, typeNameMatches, tdKind, tdName, tdBoxFields, simpleCheck, tdValue,
      bind, Except.bind, Option.getD]

/-! ## C8 — the §8 example program is rejected by the top-level parser -/

/-- C8 counterexample: the source `var x: num = 2; var y: num = 3; say x + y;`
tokenizes, but `parseProgram` throws `Unexpected keyword var at 1:1` — the
top level accepts only `namespace`/`pack`/comments — so the program never
parses, never executes, and outputs nothing. -/
theorem c8_counterexample :
    (do let ts ← tokenize c8Source
        parseProgram noSubParsers ts) =
      .error (.thrown "Unexpected keyword var at 1:1") := by
  rfl

/-- C8 amended: tokenization of the example source succeeds and its first
token is the keyword `var`; for every choice of namespace/pack sub-parsers
the parse then fails with `Unexpected keyword var at 1:1` (so the example
cannot run from source); the example's intended semantics is nevertheless
right: with `x = 2` and `y = 3` bound, `say x + y;` outputs the single
value `5`. -/
theorem c8_amended :
    (∃ ts, tokenize c8Source = .ok ts ∧
      (peekT ts 0).type = "keyword" ∧ (peekT ts 0).value = "var") ∧
    (∀ sub : SubParsers,
      (do let ts ← tokenize c8Source
          parseProgram sub ts) =
        .error (.thrown "Unexpected keyword var at 1:1")) ∧
    executeActions 3 { arena := xyArena, output := [] } 0
        [.sayA (.binE .addB (.identE "x") (.identE "y"))] =
      ({ arena := xyArena, output := [[.numV (.fin 5)]] }, .ok .nullV) := by
  refine ⟨⟨_, rfl, rfl, rfl⟩, fun sub => rfl, ?_⟩
  have h23 : (2 : ℚ) + 3 = 5 := by norm_num
  simp [executeActions, executeActionsGo, evalAction, evalExpr, evalBinary,
    getVariable, getVarGo, xyArena, frameOf, alook, builtinTypes, jsAdd, toPrim,
    toNumber, jAdd, bind, Except.bind, h23]

/-! ## C4 — every backpatched jump target is in bounds -/

theorem jb_nil {n : Nat} : JumpsBounded [] n := by
  intro ins hm
  cases hm

theorem jb_mono {c : List Instr} {n m : Nat} (h : JumpsBounded c n) (hnm : n ≤ m) :
    JumpsBounded c m :=
  fun ins hm hop => le_trans (h ins hm hop) hnm

theorem jb_append {c d : List Instr} {n : Nat} (hc : JumpsBounded c n)
    (hd : JumpsBounded d n) : JumpsBounded (c ++ d) n := by
  intro ins hm hop
  rcases List.mem_append.mp hm with hm | hm
  · exact hc ins hm hop
  · exact hd ins hm hop

theorem jb_single {ins : Instr} {n : Nat} (h : ins.target ≤ n) :
    JumpsBounded [ins] n := by
  intro i hm _
  rcases List.mem_singleton.mp hm with rfl
  exact h

theorem jb_set {c : List Instr} {n : Nat} {x : Instr} {i : Nat}
    (h : JumpsBounded c n) (hx : x.target ≤ n) : JumpsBounded (c.set i x) n := by
  intro ins hm hop
  rcases List.mem_or_eq_of_mem_set hm with hm | rfl
  · exact h ins hm hop
  · exact hx

theorem max_collapse {n x y : Nat} (h : x ≤ y) : max (max n x) y = max n y := by
  rw [max_assoc, Nat.max_eq_right h]

mutual

theorem jb_exprC : ∀ (e : Expr) (c : List Instr) (n : Nat), JumpsBounded c n →
    JumpsBounded (compileExprC e c) n ∧ c.length + 1 ≤ (compileExprC e c).length
  | .numE _, c, n, h =>
      ⟨jb_append h (jb_single (Nat.zero_le n)), by simp [compileExprC]⟩
  | .hexE _, c, n, h =>
      ⟨jb_append h (jb_single (Nat.zero_le n)), by simp [compileExprC]⟩
  | .textE _, c, n, h =>
      ⟨jb_append h (jb_single (Nat.zero_le n)), by simp [compileExprC]⟩
  | .boolE _, c, n, h =>
      ⟨jb_append h (jb_single (Nat.zero_le n)), by simp [compileExprC]⟩
  | .nullE, c, n, h =>
      ⟨jb_append h (jb_single (Nat.zero_le n)), by simp [compileExprC]⟩
  | .identE _, c, n, h =>
      ⟨jb_append h (jb_single (Nat.zero_le n)), by simp [compileExprC]⟩
  | .binE op l r, c, n, h => by
      have h1 := jb_exprC l c n h
      have h2 := jb_exprC r (compileExprC l c) n h1.1
      refine ⟨jb_append h2.1 (jb_single (Nat.zero_le n)), ?_⟩
      simp only [compileExprC, List.length_append, List.length_cons, List.length_nil]
      omega
  | .notE op e, c, n, h => by
      have h1 := jb_exprC e c n h
      refine ⟨jb_append h1.1 (jb_single (Nat.zero_le n)), ?_⟩
      simp only [compileExprC, List.length_append, List.length_cons, List.length_nil]
      omega
  | .listE es, c, n, h => by
      have h1 : JumpsBounded (c ++ [{ opcode := .push, value := .valO (.listV []) }]) n :=
        jb_append h (jb_single (Nat.zero_le n))
      have h2 := jb_listElems es (c ++ [{ opcode := .push, value := .valO (.listV []) }]) n h1
      refine ⟨h2.1, ?_⟩
      have := h2.2
      simp only [compileExprC, List.length_append, List.length_cons, List.length_nil] at this ⊢
      omega
  | .dictE ps, c, n, h => by
      have h1 : JumpsBounded (c ++ [{ opcode := .push, value := .valO (.dictV []) }]) n :=
        jb_append h (jb_single (Nat.zero_le n))
      have h2 := jb_dictEntries ps (c ++ [{ opcode := .push, value := .valO (.dictV []) }]) n h1
      refine ⟨h2.1, ?_⟩
      have := h2.2
      simp only [compileExprC, List.length_append, List.length_cons, List.length_nil] at this ⊢
      omega
  | .boxE bn ps, c, n, h => by
      have h1 : JumpsBounded (c ++
          [{ opcode := .push,
             value := .valO (.dictV [("type", .strV bn), ("value", .dictV [])]) }]) n :=
        jb_append h (jb_single (Nat.zero_le n))
      have h2 := jb_dictEntries ps (c ++
          [{ opcode := .push,
             value := .valO (.dictV [("type", .strV bn), ("value", .dictV [])]) }]) n h1
      refine ⟨h2.1, ?_⟩
      have := h2.2
      simp only [compileExprC, List.length_append, List.length_cons, List.length_nil] at this ⊢
      omega
  | .groupE es, c, n, h => by
      have h1 := jb_groupElems es c n h
      refine ⟨jb_append h1.1 (jb_single (Nat.zero_le n)), ?_⟩
      have := h1.2
      simp only [compileExprC, List.length_append, List.length_cons, List.length_nil]
      omega
  | .throwE en e, c, n, h => by
      have h1 := jb_exprC e c n h
      refine ⟨jb_append h1.1 (jb_single (Nat.zero_le n)), ?_⟩
      have := h1.2
      simp only [compileExprC, List.length_append, List.length_cons, List.length_nil]
      omega

theorem jb_listElems : ∀ (es : List Expr) (c : List Instr) (n : Nat), JumpsBounded c n →
    JumpsBounded (compileListElems es c) n ∧ c.length ≤ (compileListElems es c).length
  | [], c, n, h => ⟨h, le_refl _⟩
  | e :: rest, c, n, h => by
      have h1 := jb_exprC e c n h
      have h2 : JumpsBounded (compileExprC e c ++ [{ opcode := .listAppend }]) n :=
        jb_append h1.1 (jb_single (Nat.zero_le n))
      have h3 := jb_listElems rest (compileExprC e c ++ [{ opcode := .listAppend }]) n h2
      refine ⟨h3.1, ?_⟩
      have ha := h1.2
      have hb := h3.2
      simp only [compileListElems, List.length_append, List.length_cons,
        List.length_nil] at hb ⊢
      omega

theorem jb_dictEntries : ∀ (ps : List (String × Expr)) (c : List Instr) (n : Nat),
    JumpsBounded c n →
    JumpsBounded (compileDictEntries ps c) n ∧ c.length ≤ (compileDictEntries ps c).length
  | [], c, n, h => ⟨h, le_refl _⟩
  | (k, e) :: rest, c, n, h => by
      have h1 := jb_exprC e c n h
      have h2 : JumpsBounded (compileExprC e c ++ [{ opcode := .dictSet, dictKey := k }]) n :=
        jb_append h1.1 (jb_single (Nat.zero_le n))
      have h3 := jb_dictEntries rest
        (compileExprC e c ++ [{ opcode := .dictSet, dictKey := k }]) n h2
      refine ⟨h3.1, ?_⟩
      have ha := h1.2
      have hb := h3.2
      simp only [compileDictEntries, List.length_append, List.length_cons,
        List.length_nil] at hb ⊢
      omega

theorem jb_groupElems : ∀ (es : List Expr) (c : List Instr) (n : Nat), JumpsBounded c n →
    JumpsBounded (compileGroupElems es c) n ∧ c.length ≤ (compileGroupElems es c).length
  | [], c, n, h => ⟨h, le_refl _⟩
  | e :: rest, c, n, h => by
      have h1 := jb_exprC e c n h
      have h3 := jb_groupElems rest (compileExprC e c) n h1.1
      refine ⟨h3.1, ?_⟩
      have ha := h1.2
      have hb := h3.2
      simp only [compileGroupElems] at hb ⊢
      omega

end

/-- The end-jump backpatch fold of `compileMatchAction`: each `List.set`
writes a `JUMP` to the (constant) code length, so the jump bound and the
length are preserved. -/
theorem jb_foldl_patch : ∀ (ej : List Nat) (c : List Instr) (n : Nat),
    JumpsBounded c n →
    JumpsBounded
      (ej.foldl (fun cc idx => cc.set idx { opcode := .jump, target := cc.length }) c)
      (max n c.length) ∧
    (ej.foldl (fun cc idx => cc.set idx { opcode := .jump, target := cc.length }) c).length
      = c.length
  | [], c, n, h => ⟨jb_mono h (le_max_left _ _), rfl⟩
  | idx :: rest, c, n, h => by
      have hstep : JumpsBounded (c.set idx { opcode := .jump, target := c.length })
          (max n c.length) :=
        jb_set (jb_mono h (le_max_left _ _)) (le_max_right _ _)
      have hrec := jb_foldl_patch rest
        (c.set idx { opcode := .jump, target := c.length }) (max n c.length) hstep
      have hlen : (c.set idx { opcode := .jump, target := c.length }).length = c.length := by
        simp
      constructor
      · have := hrec.1
        rw [hlen, max_collapse (le_refl c.length)] at this
        simpa [List.foldl] using this
      · have := hrec.2
        rw [hlen] at this
        simpa [List.foldl] using this

/-- Splitting a successful monadic bind over `Except` into its two stages. -/
theorem bindE_ok {α β : Type} {x : Except Err α} {f : α → Except Err β} {b : β}
    (h : bind x f = .ok b) : ∃ a, x = .ok a ∧ f a = .ok b := by
  cases x with
  | error e => exact absurd h (by simp [bind, Except.bind])
  | ok a => exact ⟨a, rfl, by simpa [bind, Except.bind] using h⟩

/-- `compileIfAction`: the two backpatched jumps resolve to in-segment
offsets. -/
theorem jb_if_aux (cond : Expr) (thenB : List Action) (elseB : Option (List Action))
    (onErr : Option (Option String × List Action))
    (hthen : ActsBounded thenB) (helse : ∀ eb, elseB = some eb → ActsBounded eb) :
    ActionBounded (.ifA cond thenB elseB onErr) := by
  intro c c' n heq h
  rw [compileActionC.eq_3] at heq
  obtain ⟨c3, h3eq, heq⟩ := bindE_ok heq
  obtain ⟨c6, h6eq, heq⟩ := bindE_ok heq
  try dsimp only at heq
  cases heq
  have h1 := jb_exprC cond c n h
  have h3 := hthen _ c3 n h3eq (jb_append h1.1 (jb_single (Nat.zero_le n)))
  have h32 := h3.2
  simp only [List.length_append, List.length_cons, List.length_nil] at h32
  have h6 : JumpsBounded c6 (max n c6.length) ∧ c3.length + 1 ≤ c6.length := by
    cases elseB with
    | none =>
        dsimp only at h6eq
        cases h6eq
        constructor
        · simp only [List.length_set, List.length_append, List.length_cons,
            List.length_nil]
          refine jb_set (jb_append (jb_mono h3.1 ?_) (jb_single ?_)) ?_ <;>
            (try simp only [List.length_append, List.length_cons, List.length_nil]) <;>
            (try dsimp only) <;> omega
        · simp
    | some eb =>
        dsimp only at h6eq
        have hrec := helse eb rfl _ c6 (max n (c3.length + 1)) h6eq (by
          refine jb_set (jb_append (jb_mono h3.1 ?_) (jb_single ?_)) ?_ <;>
            (try simp only [List.length_append, List.length_cons, List.length_nil]) <;>
            (try dsimp only) <;> omega)
        have hr2 := hrec.2
        simp only [List.length_set, List.length_append, List.length_cons,
          List.length_nil] at hr2
        constructor
        · have := hrec.1
          rw [max_collapse hr2] at this
          exact this
        · omega
  constructor
  · simp only [List.length_set]
    exact jb_set h6.1 (le_max_right _ _)
  · simp only [List.length_set]
    have ha := h1.2
    have hc := h6.2
    omega

/-- `compileLoopAction`: the single backward jump targets the recorded loop
start. -/
theorem jb_loop_aux (target : Target) (startE endE : Expr) (body : List Action)
    (onErr : Option (Option String × List Action)) (hbody : ActsBounded body) :
    ActionBounded (.loopA target startE endE body onErr) := by
  intro c c' n heq h
  rw [compileActionC.eq_4] at heq
  obtain ⟨c3, hbodyeq, heq⟩ := bindE_ok heq
  try dsimp only at heq
  cases heq
  have h1 := jb_exprC startE c n h
  have h2 := jb_exprC endE _ n h1.1
  have hb := hbody _ c3 n hbodyeq (jb_append h2.1 (jb_single (Nat.zero_le n)))
  have ha := h1.2
  have hc := h2.2
  have hd := hb.2
  simp only [List.length_append, List.length_cons, List.length_nil] at hd
  constructor
  · simp only [List.length_append, List.length_cons, List.length_nil]
    refine jb_append (jb_mono hb.1 ?_) (jb_single ?_) <;> (try dsimp only) <;> omega
  · simp only [List.length_append, List.length_cons, List.length_nil]
    omega

/-- `compileWhileAction`: the backpatched exit jump and the backward jump
both resolve in segment. -/
theorem jb_while_aux (cond : Expr) (body : List Action)
    (onErr : Option (Option String × List Action)) (hbody : ActsBounded body) :
    ActionBounded (.whileA cond body onErr) := by
  intro c c' n heq h
  rw [compileActionC.eq_5] at heq
  obtain ⟨c3, hbodyeq, heq⟩ := bindE_ok heq
  try dsimp only at heq
  cases heq
  have h1 := jb_exprC cond c n h
  have hb := hbody _ c3 n hbodyeq (jb_append h1.1 (jb_single (Nat.zero_le n)))
  have ha := h1.2
  have hd := hb.2
  simp only [List.length_append, List.length_cons, List.length_nil] at hd
  constructor
  · simp only [List.length_set, List.length_append, List.length_cons,
      List.length_nil]
    refine jb_set (jb_append (jb_mono hb.1 ?_) (jb_single ?_)) ?_ <;>
      (try simp only [List.length_append, List.length_cons, List.length_nil]) <;>
      (try dsimp only) <;> omega
  · simp only [List.length_set, List.length_append, List.length_cons,
      List.length_nil]
    omega

/-- `compileMatchAction`: the collected end jumps are backpatched to the
final code length. -/
theorem jb_match_aux (expr : Expr) (body : MatchBody)
    (onErr : Option (Option String × List Action))
    (hcs : ∀ cs, body = .casesM cs → MatchCasesBounded cs) :
    ActionBounded (.matchA expr body onErr) := by
  intro c c' n heq h
  have h1 := jb_exprC expr c n h
  cases body with
  | simpleM acts =>
      rw [compileActionC.eq_6] at heq
      exact Except.noConfusion heq
  | casesM cases =>
      rw [compileActionC.eq_7] at heq
      obtain ⟨pr, hcseq, heq⟩ := bindE_ok heq
      obtain ⟨c2, ej⟩ := pr
      dsimp only at heq
      cases heq
      have h2 := hcs cases rfl _ [] c2 ej n hcseq h1.1
      have h3 := jb_foldl_patch ej c2 (max n c2.length)
        (jb_mono h2.1 (le_refl _))
      constructor
      · have := h3.1
        rw [max_collapse (le_refl c2.length)] at this
        rw [h3.2]
        exact this
      · rw [h3.2]
        have := h2.2
        have ha := h1.2
        omega

/-- `compileTryAction`: the `TRY` instruction's catch/finally offsets and
the jump-to-finally all resolve in segment. -/
theorem jb_try_aux (tb : List Action) (cb : Option (String × String × List Action))
    (fb : Option (List Action)) (htb : ActsBounded tb)
    (hcatch : ∀ nm ty acts, cb = some (nm, ty, acts) → ActsBounded acts)
    (hfin : ∀ fbl, fb = some fbl → ActsBounded fbl) :
    ActionBounded (.tryA tb cb fb) := by
  intro c c' n heq h
  rw [compileActionC.eq_8] at heq
  obtain ⟨c2, htbeq, heq⟩ := bindE_ok heq
  obtain ⟨c4, hcbeq, heq⟩ := bindE_ok heq
  obtain ⟨c6, hfbeq, heq⟩ := bindE_ok heq
  try dsimp only at heq
  cases heq
  have h2 := htb _ c2 n htbeq (jb_append h (jb_single (Nat.zero_le n)))
  have h22 := h2.2
  simp only [List.length_append, List.length_cons, List.length_nil] at h22
  have h4 : JumpsBounded c4 (max n c4.length) ∧ c2.length + 1 ≤ c4.length := by
    cases cb with
    | none =>
        dsimp only at hcbeq
        cases hcbeq
        constructor
        · simp only [List.length_append, List.length_cons, List.length_nil]
          refine jb_append (jb_mono h2.1 ?_) (jb_single ?_) <;>
            (try dsimp only) <;> omega
        · simp
    | some trip =>
        obtain ⟨nm, ty, acts⟩ := trip
        dsimp only at hcbeq
        have hrec := hcatch nm ty acts rfl _ c4 (max n (c2.length + 1)) hcbeq (by
          refine jb_append (jb_append (jb_mono h2.1 ?_) (jb_single ?_))
            (jb_single ?_) <;>
            (try simp only [List.length_append, List.length_cons, List.length_nil]) <;>
            (try dsimp only) <;> omega)
        have hr2 := hrec.2
        simp only [List.length_append, List.length_cons, List.length_nil] at hr2
        constructor
        · have := hrec.1
          rw [max_collapse (by omega : c2.length + 1 ≤ c4.length)] at this
          exact this
        · omega
  have h6 : JumpsBounded c6 (max n c6.length) ∧ c4.length ≤ c6.length := by
    cases fb with
    | none =>
        dsimp only at hfbeq
        cases hfbeq
        constructor
        · simp only [List.length_set]
          exact jb_set h4.1 (Nat.zero_le _)
        · simp only [List.length_set]
          exact le_refl _
    | some fbl =>
        dsimp only at hfbeq
        have hrec := hfin fbl rfl _ c6 (max n c4.length) hfbeq (by
          exact jb_set h4.1 (Nat.zero_le _))
        have hr2 := hrec.2
        simp only [List.length_set] at hr2
        constructor
        · have := hrec.1
          rw [max_collapse hr2] at this
          exact this
        · exact hr2
  constructor
  · simp only [List.length_set]
    exact jb_set h6.1 (le_max_right _ _)
  · simp only [List.length_set]
    have hc := h6.2
    omega

/-- Cons step of the `compileAction` fold. -/
theorem jb_actions_cons_aux (a : Action) (rest : List Action)
    (ha : ActionBounded a) (hrest : ActsBounded rest) : ActsBounded (a :: rest) := by
  intro c c' n heq h
  rw [compileActionsC.eq_2] at heq
  obtain ⟨c1, haeq, heq⟩ := bindE_ok heq
  have h1 := ha c c1 n haeq h
  have h2 := hrest c1 c' (max n c1.length) heq h1.1
  rw [max_collapse h2.2] at h2
  exact ⟨h2.1, le_trans h1.2 h2.2⟩

/-- Cons step of the `compileMatchAction` case loop. -/
theorem jb_mc_cons_aux (pat : Pattern) (acts : List Action)
    (rest : List (Pattern × List Action))
    (hacts : ActsBounded acts) (hrest : MatchCasesBounded rest) :
    MatchCasesBounded ((pat, acts) :: rest) := by
  intro c ej c' ej' n heq h
  by_cases hp : pat = .elseP
  · subst hp
    rw [compileMatchCasesC.eq_2] at heq
    obtain ⟨c1, haeq, heq⟩ := bindE_ok heq
    have h1 := hacts c c1 n haeq h
    have h2 := hrest c1 ej c' ej' (max n c1.length) heq h1.1
    rw [max_collapse h2.2] at h2
    exact ⟨h2.1, le_trans h1.2 h2.2⟩
  · rw [compileMatchCasesC.eq_3 c ej pat acts rest hp] at heq
    obtain ⟨c3, haeq, heq⟩ := bindE_ok heq
    dsimp only at heq
    have h3 := hacts _ c3 n haeq
      (jb_append (jb_append h (jb_single (Nat.zero_le n)))
        (jb_single (Nat.zero_le n)))
    have h32 := h3.2
    simp only [List.length_append, List.length_cons, List.length_nil] at h32
    have hrec := hrest _ (ej ++ [c3.length]) c' ej'
      (max n (c3.length + 1)) heq (by
        refine jb_set (jb_append (jb_mono h3.1 ?_) (jb_single ?_)) ?_ <;>
          (try simp only [List.length_append, List.length_cons, List.length_nil]) <;>
          (try dsimp only) <;> omega)
    have hr2 := hrec.2
    simp only [List.length_set, List.length_append, List.length_cons,
      List.length_nil] at hr2
    constructor
    · have := hrec.1
      rw [max_collapse hr2] at this
      exact this
    · omega

/-- The non-recursive action forms keep jumps bounded (their appended
instructions all carry `target := 0`). -/
theorem jb_action_simple (a : Action)
    (hs : (match a with
           | .setA _ _ | .returnA _ _ | .sayA _ | .checkA _ _ | .storeA _ _
           | .forgetA _ _ => True
           | _ => False)) : ActionBounded a := by
  intro c c' n heq h
  cases a with
  | setA target value =>
      have h1 := jb_exprC value c n h
      cases target with
      | name nm =>
          simp only [compileActionC] at heq
          cases heq
          refine ⟨jb_mono (jb_append h1.1 (jb_single (Nat.zero_le n)))
            (le_max_left _ _), ?_⟩
          have := h1.2
          simp only [List.length_append, List.length_cons, List.length_nil]
          omega
      | split names =>
          simp only [compileActionC] at heq
          cases heq
          have hmap : JumpsBounded
              (names.map (fun nm => ({ opcode := .store, value := .nameO nm } : Instr))) n := by
            intro ins hm _
            obtain ⟨x, _, rfl⟩ := List.mem_map.mp hm
            exact Nat.zero_le n
          refine ⟨jb_mono (jb_append (jb_append h1.1 (jb_single (Nat.zero_le n))) hmap)
            (le_max_left _ _), ?_⟩
          have := h1.2
          simp only [List.length_append, List.length_cons, List.length_nil,
            List.length_map]
          omega
  | returnA ty value =>
      simp only [compileActionC] at heq
      have h1 := jb_exprC value c n h
      cases ty with
      | some t =>
          dsimp only at heq
          cases heq
          refine ⟨jb_mono (jb_append (jb_append h1.1 (jb_single (Nat.zero_le n)))
            (jb_single (Nat.zero_le n))) (le_max_left _ _), ?_⟩
          have := h1.2
          simp only [List.length_append, List.length_cons, List.length_nil]
          omega
      | none =>
          dsimp only at heq
          cases heq
          refine ⟨jb_mono (jb_append h1.1 (jb_single (Nat.zero_le n)))
            (le_max_left _ _), ?_⟩
          have := h1.2
          simp only [List.length_append, List.length_cons, List.length_nil]
          omega
  | sayA e =>
      simp only [compileActionC] at heq
      cases heq
      have h1 := jb_exprC e c n h
      refine ⟨jb_mono (jb_append h1.1 (jb_single (Nat.zero_le n))) (le_max_left _ _), ?_⟩
      have := h1.2
      simp only [List.length_append, List.length_cons, List.length_nil]
      omega
  | checkA e msg =>
      simp only [compileActionC] at heq
      cases heq
      have h1 := jb_exprC e c n h
      refine ⟨jb_mono (jb_append h1.1 (jb_single (Nat.zero_le n))) (le_max_left _ _), ?_⟩
      have := h1.2
      simp only [List.length_append, List.length_cons, List.length_nil]
      omega
  | storeA k e =>
      simp only [compileActionC] at heq
      cases heq
      have h1 := jb_exprC e c n h
      refine ⟨jb_mono (jb_append h1.1 (jb_single (Nat.zero_le n))) (le_max_left _ _), ?_⟩
      have := h1.2
      simp only [List.length_append, List.length_cons, List.length_nil]
      omega
  | forgetA k reason =>
      simp only [compileActionC] at heq
      cases heq
      refine ⟨jb_mono (jb_append h (jb_append (jb_single (Nat.zero_le n))
        (jb_single (Nat.zero_le n)))) (le_max_left _ _), ?_⟩
      simp [List.length_append]
  | ifA cond thenB elseB onErr => cases hs
  | loopA target startE endE body onErr => cases hs
  | whileA cond body onErr => cases hs
  | matchA expr body onErr => cases hs
  | tryA tb cb fb => cases hs

mutual

theorem jb_actionC : ∀ (a : Action), ActionBounded a
  | .setA target value => jb_action_simple _ trivial
  | .ifA cond thenB elseB onErr =>
      jb_if_aux cond thenB elseB onErr (jb_actionsC thenB)
        (fun eb heb => jb_actionsC eb)
  | .loopA target startE endE body onErr =>
      jb_loop_aux target startE endE body onErr (jb_actionsC body)
  | .whileA cond body onErr =>
      jb_while_aux cond body onErr (jb_actionsC body)
  | .matchA expr body onErr =>
      jb_match_aux expr body onErr (fun cs hcs => jb_matchCasesC cs)
  | .tryA tb cb fb =>
      jb_try_aux tb cb fb (jb_actionsC tb)
        (fun nm ty acts hacts => jb_actionsC acts)
        (fun fbl hfbl => jb_actionsC fbl)
  | .returnA ty value => jb_action_simple _ trivial
  | .sayA e => jb_action_simple _ trivial
  | .checkA e msg => jb_action_simple _ trivial
  | .storeA k e => jb_action_simple _ trivial
  | .forgetA k reason => jb_action_simple _ trivial
termination_by a => sizeOf a
decreasing_by all_goals ((try subst_vars); simp_wf <;> omega)

theorem jb_actionsC : ∀ (acts : List Action), ActsBounded acts
  | [] => by
      intro c c' n heq h
      simp only [compileActionsC] at heq
      cases heq
      exact ⟨jb_mono h (le_max_left _ _), le_refl _⟩
  | a :: rest => jb_actions_cons_aux a rest (jb_actionC a) (jb_actionsC rest)
termination_by acts => sizeOf acts
decreasing_by all_goals ((try subst_vars); simp_wf <;> omega)

theorem jb_matchCasesC : ∀ (cs : List (Pattern × List Action)), MatchCasesBounded cs
  | [] => by
      intro c ej c' ej' n heq h
      simp only [compileMatchCasesC] at heq
      cases heq
      exact ⟨jb_mono h (le_max_left _ _), le_refl _⟩
  | (pat, acts) :: rest =>
      jb_mc_cons_aux pat acts rest (jb_actionsC acts) (jb_matchCasesC rest)
termination_by cs => sizeOf cs
decreasing_by all_goals ((try subst_vars); simp_wf <;> omega)

end

/-- `compileMoneyDecl`'s rule loop: the conditional jump over each rule's
reward code (emitted with target `c1.length + 3`) lands inside the rule's
own code. -/
theorem jb_moneyRules : ∀ (rs : List (String × Expr × Option Expr × Option Int))
    (c : List Instr) (n : Nat), JumpsBounded c n →
    JumpsBounded (compileMoneyRules rs c) (max n (compileMoneyRules rs c).length) ∧
    c.length ≤ (compileMoneyRules rs c).length
  | [], c, n, h => ⟨jb_mono h (le_max_left _ _), le_refl _⟩
  | (nm, box, none, amount) :: rest, c, n, h => by
      simp only [compileMoneyRules]
      exact jb_moneyRules rest c n h
  | (nm, box, some w, none) :: rest, c, n, h => by
      simp only [compileMoneyRules]
      have h1 := jb_exprC w c n h
      have hC2 : JumpsBounded
          (compileExprC w c ++
            [({ opcode := .jumpIfFalse,
                target := (compileExprC w c).length + 3 } : Instr)])
          (max n ((compileExprC w c).length + 3)) := by
        refine jb_append (jb_mono h1.1 (le_max_left _ _)) (jb_single ?_)
        exact le_max_right _ _
      have h2 := jb_exprC box _ (max n ((compileExprC w c).length + 3)) hC2
      have hC4 : JumpsBounded
          (compileExprC box (compileExprC w c ++
              [({ opcode := .jumpIfFalse,
                  target := (compileExprC w c).length + 3 } : Instr)]) ++
            [({ opcode := .push, value := .valO (.nullV) } : Instr),
             ({ opcode := .store, value := .nameO "reward" } : Instr)])
          (max n ((compileExprC w c).length + 3)) :=
        jb_append h2.1 (jb_append (jb_single (Nat.zero_le _)) (jb_single (Nat.zero_le _)))
      have hg2 := h2.2
      simp only [List.length_append, List.length_cons, List.length_nil] at hg2
      have hC4' : JumpsBounded
          (compileExprC box (compileExprC w c ++
              [({ opcode := .jumpIfFalse,
                  target := (compileExprC w c).length + 3 } : Instr)]) ++
            [({ opcode := .push, value := .valO (.nullV) } : Instr),
             ({ opcode := .store, value := .nameO "reward" } : Instr)])
          (max n ((compileExprC box (compileExprC w c ++
              [({ opcode := .jumpIfFalse,
                  target := (compileExprC w c).length + 3 } : Instr)]) ++
            [({ opcode := .push, value := .valO (.nullV) } : Instr),
             ({ opcode := .store, value := .nameO "reward" } : Instr)]).length)) := by
        refine jb_mono hC4 ?_
        simp only [List.length_append, List.length_cons, List.length_nil]
        omega
      have hrec := jb_moneyRules rest _ _ hC4'
      have hr2 := hrec.2
      simp only [List.length_append, List.length_cons, List.length_nil] at hr2
      constructor
      · have := hrec.1
        rw [max_collapse (by
          simp only [List.length_append, List.length_cons, List.length_nil]
          omega)] at this
        exact this
      · have hg1 := h1.2
        omega
  | (nm, box, some w, some k) :: rest, c, n, h => by
      simp only [compileMoneyRules]
      have h1 := jb_exprC w c n h
      have hC2 : JumpsBounded
          (compileExprC w c ++
            [({ opcode := .jumpIfFalse,
                target := (compileExprC w c).length + 3 } : Instr)])
          (max n ((compileExprC w c).length + 3)) := by
        refine jb_append (jb_mono h1.1 (le_max_left _ _)) (jb_single ?_)
        exact le_max_right _ _
      have h2 := jb_exprC box _ (max n ((compileExprC w c).length + 3)) hC2
      have hC4 : JumpsBounded
          (compileExprC box (compileExprC w c ++
              [({ opcode := .jumpIfFalse,
                  target := (compileExprC w c).length + 3 } : Instr)]) ++
            [({ opcode := .push, value := .valO (.numV (.fin k)) } : Instr),
             ({ opcode := .store, value := .nameO "reward" } : Instr)])
          (max n ((compileExprC w c).length + 3)) :=
        jb_append h2.1 (jb_append (jb_single (Nat.zero_le _)) (jb_single (Nat.zero_le _)))
      have hg2 := h2.2
      simp only [List.length_append, List.length_cons, List.length_nil] at hg2
      have hC4' : JumpsBounded
          (compileExprC box (compileExprC w c ++
              [({ opcode := .jumpIfFalse,
                  target := (compileExprC w c).length + 3 } : Instr)]) ++
            [({ opcode := .push, value := .valO (.numV (.fin k)) } : Instr),
             ({ opcode := .store, value := .nameO "reward" } : Instr)])
          (max n ((compileExprC box (compileExprC w c ++
              [({ opcode := .jumpIfFalse,
                  target := (compileExprC w c).length + 3 } : Instr)]) ++
            [({ opcode := .push, value := .valO (.numV (.fin k)) } : Instr),
             ({ opcode := .store, value := .nameO "reward" } : Instr)]).length)) := by
        refine jb_mono hC4 ?_
        simp only [List.length_append, List.length_cons, List.length_nil]
        omega
      have hrec := jb_moneyRules rest _ _ hC4'
      have hr2 := hrec.2
      simp only [List.length_append, List.length_cons, List.length_nil] at hr2
      constructor
      · have := hrec.1
        rw [max_collapse (by
          simp only [List.length_append, List.length_cons, List.length_nil]
          omega)] at this
        exact this
      · have hg1 := h1.2
        omega

/-- `Engine.compileNode`: every declaration form keeps the jump bound and
only appends code. -/
theorem jb_nodeC (d : Decl) (c c' : List Instr) (n : Nat)
    (heq : compileNodeC d c = .ok c') (h : JumpsBounded c n) :
    JumpsBounded c' (max n c'.length) ∧ c.length ≤ c'.length := by
  cases d with
  | varD names ty value =>
      have h1 := jb_exprC value c n h
      cases names with
      | name nm =>
          cases ty with
          | some t =>
              rw [compileNodeC.eq_1] at heq
              cases heq
              by_cases hcond : tnTag t ≠ "InferType"
              · rw [if_pos hcond]
                refine ⟨jb_mono (jb_append (jb_append h1.1 (jb_single (Nat.zero_le _)))
                  (jb_single (Nat.zero_le _))) (le_max_left _ _), ?_⟩
                have := h1.2
                simp only [List.length_append, List.length_cons, List.length_nil]
                omega
              · rw [if_neg hcond]
                refine ⟨jb_mono (jb_append h1.1 (jb_single (Nat.zero_le _)))
                  (le_max_left _ _), ?_⟩
                have := h1.2
                simp only [List.length_append, List.length_cons, List.length_nil]
                omega
          | none =>
              rw [compileNodeC.eq_2] at heq
              cases heq
              refine ⟨jb_mono (jb_append h1.1 (jb_single (Nat.zero_le _)))
                (le_max_left _ _), ?_⟩
              have := h1.2
              simp only [List.length_append, List.length_cons, List.length_nil]
              omega
      | split ns =>
          have hmap : ∀ m, JumpsBounded
              (ns.map (fun x => ({ opcode := .store, value := .nameO x } : Instr))) m := by
            intro m ins hm _
            obtain ⟨x, _, rfl⟩ := List.mem_map.mp hm
            exact Nat.zero_le m
          cases ty with
          | some t =>
              rw [compileNodeC.eq_3] at heq
              cases heq
              by_cases hcond : tnTag t ≠ "InferType"
              · rw [if_pos hcond]
                refine ⟨jb_mono (jb_append (jb_append (jb_append h1.1
                  (jb_single (Nat.zero_le _))) (jb_single (Nat.zero_le _)))
                  (hmap n)) (le_max_left _ _), ?_⟩
                have := h1.2
                simp only [List.length_append, List.length_cons, List.length_nil,
                  List.length_map]
                omega
              · rw [if_neg hcond]
                refine ⟨jb_mono (jb_append (jb_append h1.1 (jb_single (Nat.zero_le _)))
                  (hmap n)) (le_max_left _ _), ?_⟩
                have := h1.2
                simp only [List.length_append, List.length_cons, List.length_nil,
                  List.length_map]
                omega
          | none =>
              rw [compileNodeC.eq_4] at heq
              cases heq
              refine ⟨jb_mono (jb_append (jb_append h1.1 (jb_single (Nat.zero_le _)))
                (hmap n)) (le_max_left _ _), ?_⟩
              have := h1.2
              simp only [List.length_append, List.length_cons, List.length_nil,
                List.length_map]
              omega
  | boxD nm fields =>
      rw [compileNodeC.eq_5] at heq
      cases heq
      exact ⟨jb_mono (jb_append h (jb_single (Nat.zero_le _))) (le_max_left _ _),
        by simp⟩
  | queueD nm =>
      rw [compileNodeC.eq_6] at heq
      cases heq
      exact ⟨jb_mono (jb_append h (jb_append (jb_single (Nat.zero_le _))
        (jb_single (Nat.zero_le _)))) (le_max_left _ _), by simp⟩
  | thinkD nm =>
      rw [compileNodeC.eq_7] at heq
      cases heq
      exact ⟨jb_mono (jb_append h (jb_append (jb_single (Nat.zero_le _))
        (jb_single (Nat.zero_le _)))) (le_max_left _ _), by simp⟩
  | looseD e =>
      rw [compileNodeC.eq_8] at heq
      cases heq
      have h1 := jb_exprC e c n h
      exact ⟨jb_mono h1.1 (le_max_left _ _), by have := h1.2; omega⟩
  | targetD t =>
      rw [compileNodeC.eq_9] at heq
      cases heq
      exact ⟨jb_mono (jb_append h (jb_append (jb_single (Nat.zero_le _))
        (jb_single (Nat.zero_le _)))) (le_max_left _ _), by simp⟩
  | typeD nm t =>
      rw [compileNodeC.eq_10] at heq
      cases heq
      exact ⟨jb_mono (jb_append h (jb_single (Nat.zero_le _))) (le_max_left _ _),
        by simp⟩
  | errorD nm fields =>
      rw [compileNodeC.eq_11] at heq
      cases heq
      exact ⟨jb_mono (jb_append h (jb_single (Nat.zero_le _))) (le_max_left _ _),
        by simp⟩
  | reputationD nm user score =>
      rw [compileNodeC.eq_12] at heq
      cases heq
      exact ⟨jb_mono (jb_append h (jb_append (jb_single (Nat.zero_le _))
        (jb_single (Nat.zero_le _)))) (le_max_left _ _), by simp⟩
  | moneyD rules =>
      rw [compileNodeC.eq_13] at heq
      cases heq
      have hbase : JumpsBounded (c ++
          [({ opcode := .push,
              value := .valO (.dictV [("type", .strV "Money"),
                ("rules", .listV (rules.map moneyRuleVal))]) } : Instr),
           ({ opcode := .store, value := .nameO "money" } : Instr)]) n :=
        jb_append h (jb_append (jb_single (Nat.zero_le _)) (jb_single (Nat.zero_le _)))
      have hm := jb_moneyRules rules _ n hbase
      have hm2 := hm.2
      simp only [List.length_append, List.length_cons, List.length_nil] at hm2
      exact ⟨hm.1, by omega⟩
  | promiseD nm needs binds check enforce =>
      cases check with
      | some chk =>
          have h1 := jb_exprC chk c n h
          have hC2 : JumpsBounded
              (compileExprC chk c ++
                [({ opcode := .jumpIfFalse,
                    target := (compileExprC chk c).length + 2 } : Instr),
                 ({ opcode := .throwOp,
                    value := .nameO ("Promise check failed for " ++ nm) } : Instr)])
              (max n ((compileExprC chk c).length + 2)) := by
            refine jb_append (jb_mono h1.1 (le_max_left _ _))
              (jb_append (jb_single ?_) (jb_single (Nat.zero_le _)))
            exact le_max_right _ _
          cases enforce with
          | some acts =>
              rw [compileNodeC.eq_14] at heq
              obtain ⟨c3, h3eq, heq⟩ := bindE_ok heq
              try dsimp only at heq
              cases heq
              have hrec := jb_actionsC acts _ c3 _ h3eq hC2
              have hr2 := hrec.2
              simp only [List.length_append, List.length_cons, List.length_nil] at hr2
              have h3 : JumpsBounded c3 (max n c3.length) := by
                have := hrec.1
                rw [max_collapse (by omega : (compileExprC chk c).length + 2 ≤ c3.length)] at this
                exact this
              constructor
              · refine jb_append (jb_mono h3 ?_) (jb_append (jb_single (Nat.zero_le _))
                  (jb_single (Nat.zero_le _)))
                simp only [List.length_append, List.length_cons, List.length_nil]
                omega
              · have hg1 := h1.2
                simp only [List.length_append, List.length_cons, List.length_nil]
                omega
          | none =>
              rw [compileNodeC.eq_16] at heq
              obtain ⟨c3, h3eq, heq⟩ := bindE_ok heq
              try dsimp only at heq
              cases heq
              cases h3eq
              constructor
              · refine jb_append (jb_mono hC2 ?_) (jb_append (jb_single (Nat.zero_le _))
                  (jb_single (Nat.zero_le _)))
                simp only [List.length_append, List.length_cons, List.length_nil]
                omega
              · have hg1 := h1.2
                simp only [List.length_append, List.length_cons, List.length_nil]
                omega
      | none =>
          cases enforce with
          | some acts =>
              rw [compileNodeC.eq_15] at heq
              obtain ⟨c3, h3eq, heq⟩ := bindE_ok heq
              try dsimp only at heq
              cases heq
              have hrec := jb_actionsC acts _ c3 n h3eq h
              constructor
              · refine jb_append (jb_mono hrec.1 ?_) (jb_append (jb_single (Nat.zero_le _))
                  (jb_single (Nat.zero_le _)))
                simp only [List.length_append, List.length_cons, List.length_nil]
                omega
              · have := hrec.2
                simp only [List.length_append, List.length_cons, List.length_nil]
                omega
          | none =>
              rw [compileNodeC.eq_17] at heq
              obtain ⟨c3, h3eq, heq⟩ := bindE_ok heq
              try dsimp only at heq
              cases heq
              cases h3eq
              constructor
              · refine jb_append (jb_mono h ?_) (jb_append (jb_single (Nat.zero_le _))
                  (jb_single (Nat.zero_le _)))
                exact le_max_left _ _
              · simp only [List.length_append, List.length_cons, List.length_nil]
                omega

/-- Fold of `compileNode` over the program. -/
theorem jb_programC : ∀ (prog : List Decl) (c c' : List Instr) (n : Nat),
    compileProgramC prog c = .ok c' → JumpsBounded c n →
    JumpsBounded c' (max n c'.length) ∧ c.length ≤ c'.length
  | [], c, c', n, heq, h => by
      simp only [compileProgramC] at heq
      cases heq
      exact ⟨jb_mono h (le_max_left _ _), le_refl _⟩
  | d :: rest, c, c', n, heq, h => by
      rw [compileProgramC.eq_2] at heq
      obtain ⟨c1, haeq, heq⟩ := bindE_ok heq
      have h1 := jb_nodeC d c c1 n haeq h
      have h2 := jb_programC rest c1 c' (max n c1.length) heq h1.1
      rw [max_collapse h2.2] at h2
      exact ⟨h2.1, le_trans h1.2 h2.2⟩

/-- C4: every `JUMP`/`JUMP_IF_FALSE` instruction of a successfully compiled
program has its resolved target strictly within the instruction sequence
(the trailing `HALT` guarantees strictness), and accordingly a step of the
VM on such an instruction either leaves the instruction pointer unchanged
(an untaken conditional) or moves it so that the next fetched index is the
in-range target. -/
theorem c4_jump_targets_in_bounds (prog : List Decl) (instrs : List Instr)
    (h : compile prog = .ok instrs) :
    ∀ ins ∈ instrs, (ins.opcode = .jump ∨ ins.opcode = .jumpIfFalse) →
      ins.target < instrs.length ∧
      ∀ (f : Nat) (st : VMSt),
        (vmStep f st ins).1.ip = st.ip ∨
        ((vmStep f st ins).1.ip + 1 = (ins.target : Int) ∧
         0 ≤ (vmStep f st ins).1.ip + 1 ∧
         (vmStep f st ins).1.ip + 1 < (instrs.length : Int)) := by
  simp only [compile] at h
  obtain ⟨body, hbody, h⟩ := bindE_ok h
  try dsimp only at h
  cases h
  have hb := jb_programC prog [] body 0 hbody jb_nil
  have hjb : JumpsBounded body body.length := by
    have := hb.1
    rwa [Nat.zero_max] at this
  intro ins hm hop
  have htgt : ins.target < (body ++ [({ opcode := .halt } : Instr)]).length := by
    rcases List.mem_append.mp hm with hmm | hmm
    · have := hjb ins hmm hop
      simp only [List.length_append, List.length_cons, List.length_nil]
      omega
    · rcases List.mem_singleton.mp hmm with rfl
      rcases hop with hop | hop <;> exact absurd hop (by decide)
  refine ⟨htgt, ?_⟩
  intro f st
  rcases hop with hop | hop
  · right
    simp only [vmStep, hop]
    refine ⟨by omega, by omega, ?_⟩
    have := htgt
    simp only [List.length_append, List.length_cons, List.length_nil] at this ⊢
    omega
  · rcases hvp : vmPop st.stack with ⟨v, s1⟩
    by_cases hv : jsTruthy v
    · left
      simp only [vmStep, hop, hvp, hv, if_true]
    · right
      simp only [vmStep, hop, hvp, hv, Bool.false_eq_true, if_false]
      refine ⟨by omega, by omega, ?_⟩
      have := htgt
      simp only [List.length_append, List.length_cons, List.length_nil] at this ⊢
      omega

/-- C4 witness: the compiled promise/if program's three jump instructions
(`JUMP_IF_FALSE → 3`, `JUMP_IF_FALSE → 8`, `JUMP → 10`) all target indices
inside the 13-instruction sequence. -/
theorem c4_witness :
    ∃ instrs, compile jumpProg = .ok instrs ∧ instrs.length = 13 ∧
      ∀ ins ∈ instrs, (ins.opcode = .jump ∨ ins.opcode = .jumpIfFalse) →
        ins.target < instrs.length := by
  refine ⟨_, rfl, rfl, ?_⟩
  intro ins hm hop
  exact (c4_jump_targets_in_bounds jumpProg _ rfl ins hm hop).1

/-! ## C1 — interpreter/VM agreement on the fragment, divergence outside -/

theorem jEq_symm (x y : JNum) : jEq x y = jEq y x := by
  cases x <;> cases y <;> simp [jEq, eq_comm]

theorem jMul_comm (x y : JNum) : jMul x y = jMul y x := by
  cases x <;> cases y <;> simp [jMul, mul_comm]

theorem strictEq_symm (a b : Value) : strictEq a b = strictEq b a := by
  cases a <;> cases b <;> simp [strictEq, eq_comm, jEq_symm]

/-- `compileExpr` only appends: on the agreement fragment the code for `e`
compiled after a prefix `c` is that prefix followed by the code compiled
from scratch. -/
theorem exprC_append : ∀ (e : Expr), exprOK e = true →
    ∀ c : List Instr, compileExprC e c = c ++ compileExprC e []
  | .numE q, _, c => by simp [compileExprC]
  | .hexE s, _, c => by simp [compileExprC]
  | .textE s, _, c => by simp [compileExprC]
  | .boolE b, _, c => by simp [compileExprC]
  | .nullE, _, c => by simp [compileExprC]
  | .identE n, _, c => by simp [compileExprC]
  | .binE op l r, h, c => by
      simp only [exprOK, Bool.and_eq_true] at h
      simp only [compileExprC]
      rw [exprC_append l h.1.2 c, exprC_append r h.2 (c ++ compileExprC l []),
        exprC_append r h.2 (compileExprC l [])]
      simp [List.append_assoc]
  | .notE op e, h, c => by
      simp only [exprOK] at h
      simp only [compileExprC]
      rw [exprC_append e h c]
      simp [List.append_assoc]

/-- Fetching from the middle segment of a three-part instruction list. -/
theorem get_append_middle {α : Type} (pre ls post : List α) (k : Nat)
    (hk : k < ls.length) :
    (pre ++ ls ++ post).get? (pre.length + k) = ls.get? k := by
  rw [List.append_assoc, List.get?_append_right (Nat.le_add_right _ _)]
  rw [Nat.add_sub_cancel_left]
  exact List.get?_append hk

/-- Singleton-arena closed form of `getVariable`: only the bindings decide
the result, so the interpreter's global frame (with builtin types) and the
engine's (without) agree. -/
theorem getVariable_singleton (bs : List (String × Value)) (ts : List (String × TypeDesc))
    (n : String) :
    getVariable [{ bindings := bs, types := ts, parent := none }] 0 n =
      (match alook bs n with
       | some v => .ok v
       | none => .error (.thrown ("Undefined variable " ++ n))) := rfl

/-- Singleton-arena closed form of `defineVariable`. -/
theorem defineVariable_singleton (bs : List (String × Value)) (ts : List (String × TypeDesc))
    (n : String) (v : Value) :
    defineVariable [{ bindings := bs, types := ts, parent := none }] 0 n v =
      (if (alook bs n).isSome then
        .error (.thrown ("Variable " ++ n ++ " already defined in this scope"))
       else .ok [{ bindings := bs ++ [(n, v)], types := ts, parent := none }]) := rfl

theorem bindE_err {α β : Type} {x : Except Err α} {f : α → Except Err β} {err : Err}
    (h : bind x f = .error err) :
    x = .error err ∨ ∃ a, x = .ok a ∧ f a = .error err := by
  cases x with
  | error e =>
      left
      have : e = err := by simpa [bind, Except.bind] using h
      rw [this]
  | ok a => exact .inr ⟨a, rfl, by simpa [bind, Except.bind] using h⟩

/-- One fetch-decode-execute step of the `Engine.execute` loop at a
non-final instruction. -/
theorem vmExec_step (f : Nat) (st : VMSt) (instr : Instr)
    (hget : st.instrs.get? st.ip.toNat = some instr)
    (hip0 : 0 ≤ st.ip) (hiplt : st.ip < (st.instrs.length : Int) - 1) :
    vmExec (f + 1) st =
      (match vmStep f st instr with
       | (st', .error e) => (st', .error e)
       | (st', .ok _) => vmExec f { st' with ip := st'.ip + 1 }) := by
  have h1 : st.ip < (st.instrs.length : Int) := by omega
  have h2 : ¬ st.ip < 0 := by omega
  have h3 : ¬ (st.ip = (st.instrs.length : Int) - 1 ∧ instr.opcode ≠ .halt) := by
    intro hc
    omega
  simp only [vmExec, if_pos h1, if_neg h2, hget, if_neg h3]

theorem runs_trans {instrs : List Instr} {aV : Arena} {cs : List Int}
    {out : List (List Value)} {start k m : Nat} {s s' s'' : List Value}
    (h1 : Runs instrs aV cs out start k s s')
    (h2 : Runs instrs aV cs out (start + k) m s' s'') :
    Runs instrs aV cs out start (k + m) s s'' := by
  intro f
  rw [show f + (k + m) = (f + m) + k from by omega, h1 (f + m),
    show start + (k + m) = start + k + m from by omega]
  exact h2 f

theorem runsErr_trans {instrs : List Instr} {aV : Arena} {cs : List Int}
    {out : List (List Value)} {start k m : Nat} {s s' : List Value} {err : Err}
    (h1 : Runs instrs aV cs out start k s s')
    (h2 : RunsErr instrs aV cs out (start + k) m s' err) :
    RunsErr instrs aV cs out start (k + m) s err := by
  intro f
  obtain ⟨st', he, ho, ha⟩ := h2 f
  refine ⟨st', ?_, ho, ha⟩
  rw [show f + (k + m) = (f + m) + k from by omega, h1 (f + m)]
  exact he

theorem runsErr_mono {instrs : List Instr} {aV : Arena} {cs : List Int}
    {out : List (List Value)} {start k m : Nat} {s : List Value} {err : Err}
    (h : RunsErr instrs aV cs out start k s err) (hkm : k ≤ m) :
    RunsErr instrs aV cs out start m s err := by
  intro f
  obtain ⟨st', he, ho, ha⟩ := h (f + (m - k))
  refine ⟨st', ?_, ho, ha⟩
  rw [show f + m = (f + (m - k)) + k from by omega]
  exact he

theorem runs_one {instrs : List Instr} {aV : Arena} {cs : List Int}
    {out : List (List Value)} {start : Nat} {s s' : List Value} (instr : Instr)
    (hget : instrs.get? start = some instr)
    (hlt : start + 1 < instrs.length)
    (hstep : ∀ f, vmStep f
        { instrs := instrs, ip := (start : Int), stack := s, arena := aV, env := 0,
          callStack := cs, output := out } instr =
      ({ instrs := instrs, ip := (start : Int), stack := s', arena := aV, env := 0,
         callStack := cs, output := out }, .ok ())) :
    Runs instrs aV cs out start 1 s s' := by
  intro f
  rw [vmExec_step f _ instr (by simpa using hget) (by positivity) (by push_cast; omega)]
  rw [hstep f]
  dsimp only
  simp only [Nat.cast_add, Nat.cast_one]

theorem runsErr_now {instrs : List Instr} {aV : Arena} {cs : List Int}
    {out : List (List Value)} {start : Nat} {s : List Value} {err : Err}
    (instr : Instr) (k : Nat) (hk : 1 ≤ k)
    (hget : instrs.get? start = some instr)
    (hlt : start + 1 < instrs.length)
    (hstep : ∀ f, ∃ st', vmStep f
        { instrs := instrs, ip := (start : Int), stack := s, arena := aV, env := 0,
          callStack := cs, output := out } instr = (st', .error err) ∧
      st'.output = out ∧ st'.arena = aV) :
    RunsErr instrs aV cs out start k s err := by
  intro f
  obtain ⟨st', hs, ho, ha⟩ := hstep (f + k - 1)
  refine ⟨st', ?_, ho, ha⟩
  rw [show f + k = (f + k - 1) + 1 from by omega]
  rw [vmExec_step (f + k - 1) _ instr (by simpa using hget) (by positivity)
    (by push_cast; omega)]
  rw [hs]

/-- The VM's binary opcodes on the fragment (`SUB`/`DIV`/`MOD`/comparisons,
and the symmetric `MUL`/`EQ`/`NEQ`) compute exactly the interpreter's
`evalBinary` despite the reversed pop order. -/
theorem vmStep_binop (op : BOp) (hop : vmOpOK op = true) (f : Nat)
    (instrs : List Instr) (ip : Int) (l r : Value) (s : List Value) (aV : Arena)
    (cs : List Int) (out : List (List Value)) :
    vmStep f { instrs := instrs, ip := ip, stack := r :: l :: s, arena := aV, env := 0,
               callStack := cs, output := out } { opcode := binOpcode op } =
      ({ instrs := instrs, ip := ip, stack := evalBinary op l r :: s, arena := aV,
         env := 0, callStack := cs, output := out }, .ok ()) := by
  cases op <;>
    simp_all [vmOpOK, vmStep, binOpcode, vmPop, evalBinary, jsMul, jMul_comm,
      strictEq_symm]

end Lov
